import Mathlib

/-!
Verification of the clusterfit simulation and ranking core.

This file shallowly embeds the Go source of the repository
(internal/simulation/bfd.go, engine.go, fragmentation.go,
internal/model/cluster.go, node.go, result.go, and the sizing part of
internal/metrics/prometheus.go) and proves the frozen claims about it.

Embedding conventions:
- Go int / int32 / int64 become Int.  None of the verified claims depends on
  machine-integer wraparound, so arithmetic is exact.
- Go float64 becomes Rat.  All float computations on the verified paths are
  comparisons, linear arithmetic and division, which the exact rationals model
  faithfully; the one square root (compositeRemaining) is replaced by the
  squared norm, which is legitimate because the only use of the value is in
  strict comparisons and Real.sqrt is strictly monotone on nonnegative
  arguments, so the argmin chosen by the placement loop is unchanged.
- The Go sentinel math.MaxFloat64 (initial best score / best cost, and the
  zero-capacity branch of compositeRemaining) becomes the value none of an
  Option Rat ordered above every some value, matching the source comparisons
  because every achievable score and price is below math.MaxFloat64.
- context.Context cancellation becomes a Bool-valued oracle indexed by the
  placement loop iteration; Pack returns Except Unit to model the error path.
- Struct fields that the verified code never reads (owner identity, replica
  counts, scheduling constraint maps, regions, report strings, durations)
  are omitted from the embedded records.
-/

namespace ClusterFit

/-- Go float64 to int64 conversion: truncation toward zero. -/
def goTrunc (q : ℚ) : ℤ := if 0 ≤ q then ⌊q⌋ else ⌈q⌉

/-- Go math.Round: rounds half away from zero. -/
def goRound (q : ℚ) : ℤ := if 0 ≤ q then ⌊q + 1/2⌋ else ⌈q - 1/2⌉

/-- Comparison of a value against an Option treated as (some value or
math.MaxFloat64): the sentinel none compares above every some. -/
def ltSentinel (a : ℚ) : Option ℚ → Bool
  | none => true
  | some b => decide (a < b)

/-- model.ResourceQuantity: a CPU (millicores) and memory (bytes) pair. -/
structure ResourceQuantity where
  CPUMillis : ℤ
  MemoryBytes : ℤ
deriving DecidableEq, Repr

/-- model.PercentileValues: observed usage at several percentiles. -/
structure PercentileValues where
  P50 : ℚ
  P95 : ℚ
  P99 : ℚ
  Max : ℚ
deriving DecidableEq, Repr

/-- model.PercentileValues.AtPercentile: the value at the given percentile,
falling back to the nearest available one. -/
def PercentileValues.AtPercentile (p : PercentileValues) (pct : ℚ) : ℚ :=
  if pct ≤ 50/100 then p.P50
  else if pct ≤ 95/100 then p.P95
  else if pct ≤ 99/100 then p.P99
  else p.Max

/-- model.WorkloadProfile (the fields read by the packer, the sizing stage and
the classifier). -/
structure WorkloadProfile where
  Namespace : String
  Name : String
  Requested : ResourceQuantity
  Limits : ResourceQuantity
  CPUUsage : PercentileValues
  MemoryUsage : PercentileValues
  EffectiveCPUMillis : ℤ
  EffectiveMemoryBytes : ℤ
  IsDaemonSet : Bool
  NoMetrics : Bool
deriving DecidableEq, Repr

/-- model.CapacityType. -/
inductive CapacityType where
  | onDemand
  | spot
deriving DecidableEq, Repr

/-- model.NodeTemplate (the fields read by the simulation core). -/
structure NodeTemplate where
  InstanceType : String
  InstanceFamily : String
  AllocatableCPUMillis : ℤ
  AllocatableMemoryBytes : ℤ
  MaxPods : ℤ
  OnDemandPricePerHour : ℚ
  SpotPricePerHour : ℚ
  CapacityType : CapacityType
deriving DecidableEq, Repr

/-- model.NodeTemplate.AllocatableResources. -/
def NodeTemplate.AllocatableResources (n : NodeTemplate) : ResourceQuantity :=
  { CPUMillis := n.AllocatableCPUMillis, MemoryBytes := n.AllocatableMemoryBytes }

/-- model.NodeTemplate.EffectivePricePerHour. -/
def NodeTemplate.EffectivePricePerHour (n : NodeTemplate) : ℚ :=
  if n.CapacityType = CapacityType.spot ∧ 0 < n.SpotPricePerHour then n.SpotPricePerHour
  else n.OnDemandPricePerHour

/-- model.NodeTemplate.MonthlyCost: 730 hours per month. -/
def NodeTemplate.MonthlyCost (n : NodeTemplate) : ℚ :=
  n.EffectivePricePerHour * 730

/-- model.NodeAllocation: one provisioned node and the workloads placed on it. -/
structure NodeAllocation where
  Template : NodeTemplate
  Workloads : List WorkloadProfile
  UsedCPU : ℤ
  UsedMem : ℤ
  PodCount : ℤ
  CPUUtilization : ℚ
  MemUtilization : ℚ
deriving DecidableEq, Repr

/-- model.FragmentationReport. -/
structure FragmentationReport where
  StrandedCPUMillis : ℤ
  StrandedMemoryBytes : ℤ
  UnderutilizedNodeFraction : ℚ
  ResourceBalanceScore : ℚ
deriving DecidableEq, Repr

/-- simulation.PackInput.  The MinNodes field is constructed by the engine
(runOne) and exercised by the packer tests; it is included here even though
the packer source snapshot omits it. -/
structure PackInput where
  Workloads : List WorkloadProfile
  DaemonSets : List WorkloadProfile
  NodeTemplates : List NodeTemplate
  SystemReserved : ResourceQuantity
  MaxNodes : ℤ
  MinNodes : ℤ
  SpotRatio : ℚ
deriving DecidableEq, Repr

/-- simulation.PackResult. -/
structure PackResult where
  Nodes : List NodeAllocation
  UnschedulablePods : List WorkloadProfile
deriving DecidableEq, Repr

/-- simulation.nodeState: the in-progress allocation state of a node. -/
structure nodeState where
  template : NodeTemplate
  workloads : List WorkloadProfile
  remainingCPU : ℤ
  remainingMem : ℤ
  podCount : ℤ
deriving DecidableEq, Repr

instance : Inhabited nodeState :=
  ⟨{ template := { InstanceType := "", InstanceFamily := "",
                   AllocatableCPUMillis := 0, AllocatableMemoryBytes := 0, MaxPods := 0,
                   OnDemandPricePerHour := 0, SpotPricePerHour := 0,
                   CapacityType := CapacityType.onDemand },
     workloads := [], remainingCPU := 0, remainingMem := 0, podCount := 0 }⟩

/-! ### Sizing (internal/metrics/prometheus.go, Collect) -/

/-- The per-workload inputs of the effective-sizing computation in Collect. -/
structure SizingInput where
  requestedCPUMillis : ℤ
  requestedMemoryBytes : ℤ
  cpuUsage : PercentileValues
  memUsage : PercentileValues
  percentile : ℚ
deriving DecidableEq, Repr

/-- Effective demand of one workload as computed by Collect: the max of the
declared request and the usage at the configured percentile; the request alone
when both P95 usage values are zero (NoMetrics); then the floors of 10
millicores and 64 MiB.  Returns (EffectiveCPUMillis, EffectiveMemoryBytes,
NoMetrics). -/
def effectiveSizing (s : SizingInput) : ℤ × ℤ × Bool :=
  let cpuAtPct := s.cpuUsage.AtPercentile s.percentile
  let memAtPct := s.memUsage.AtPercentile s.percentile
  let effCPU := goTrunc (max (s.requestedCPUMillis : ℚ) (cpuAtPct * 1000))
  let effMem := goTrunc (max (s.requestedMemoryBytes : ℚ) memAtPct)
  let noMetrics := decide (s.cpuUsage.P95 = 0 ∧ s.memUsage.P95 = 0)
  let effCPU := if s.cpuUsage.P95 = 0 ∧ s.memUsage.P95 = 0 then s.requestedCPUMillis else effCPU
  let effMem := if s.cpuUsage.P95 = 0 ∧ s.memUsage.P95 = 0 then s.requestedMemoryBytes else effMem
  let effCPU := if effCPU < 10 then 10 else effCPU
  let effMem := if effMem < 64 * 1024 * 1024 then 64 * 1024 * 1024 else effMem
  (effCPU, effMem, noMetrics)

/-! ### Classification (internal/model/cluster.go) -/

/-- model.ClusterAggregateMetrics. -/
structure ClusterAggregateMetrics where
  P95CPUCores : ℚ
  P95MemoryBytes : ℚ
  MinNodeCount : ℤ
  MaxNodeCount : ℤ
deriving DecidableEq, Repr

/-- model.ClusterState (the fields read by the classifier and the engine). -/
structure ClusterState where
  Workloads : List WorkloadProfile
  DaemonSets : List WorkloadProfile
  SystemReserved : ResourceQuantity
  AggregateMetrics : Option ClusterAggregateMetrics
deriving DecidableEq, Repr

/-- model.ClusterState.TotalEffectiveCPU. -/
def ClusterState.TotalEffectiveCPU (cs : ClusterState) : ℤ :=
  cs.Workloads.foldl (fun t w => t + w.EffectiveCPUMillis) 0

/-- model.ClusterState.TotalEffectiveMemory. -/
def ClusterState.TotalEffectiveMemory (cs : ClusterState) : ℤ :=
  cs.Workloads.foldl (fun t w => t + w.EffectiveMemoryBytes) 0

/-- model.WorkloadClass. -/
inductive WorkloadClass where
  | compute
  | general
  | memory
deriving DecidableEq, Repr

/-- The tail of ClassifyWorkloads shared by both branches: the zero-vcpu
default followed by the ratio buckets. -/
def classifyRatio (vcpus gib : ℚ) : WorkloadClass × ℚ :=
  if vcpus = 0 then (WorkloadClass.general, 4)
  else
    let ratio := gib / vcpus
    if ratio < 3 then (WorkloadClass.compute, ratio)
    else if 6 < ratio then (WorkloadClass.memory, ratio)
    else (WorkloadClass.general, ratio)

/-- model.ClusterState.ClassifyWorkloads: prefer aggregate P95 metrics when
both are positive, otherwise fall back to summed effective demand, returning
(general, 4.0) when the summed CPU is zero. -/
def ClusterState.ClassifyWorkloads (cs : ClusterState) : WorkloadClass × ℚ :=
  match cs.AggregateMetrics with
  | some m =>
      if 0 < m.P95CPUCores ∧ 0 < m.P95MemoryBytes then
        classifyRatio m.P95CPUCores (m.P95MemoryBytes / (1024 * 1024 * 1024))
      else
        if cs.TotalEffectiveCPU = 0 then (WorkloadClass.general, 4)
        else classifyRatio ((cs.TotalEffectiveCPU : ℚ) / 1000)
          ((cs.TotalEffectiveMemory : ℚ) / (1024 * 1024 * 1024))
  | none =>
      if cs.TotalEffectiveCPU = 0 then (WorkloadClass.general, 4)
      else classifyRatio ((cs.TotalEffectiveCPU : ℚ) / 1000)
        ((cs.TotalEffectiveMemory : ℚ) / (1024 * 1024 * 1024))

/-- The vcpu figure the classifier feeds into the ratio (mirrors the vcpus
local variable of ClassifyWorkloads on the path that survives to the ratio
computation). -/
def ClusterState.vcpusUsed (cs : ClusterState) : ℚ :=
  match cs.AggregateMetrics with
  | some m =>
      if 0 < m.P95CPUCores ∧ 0 < m.P95MemoryBytes then m.P95CPUCores
      else (cs.TotalEffectiveCPU : ℚ) / 1000
  | none => (cs.TotalEffectiveCPU : ℚ) / 1000

/-- The GiB figure the classifier feeds into the ratio (mirrors the gib local
variable of ClassifyWorkloads). -/
def ClusterState.gibUsed (cs : ClusterState) : ℚ :=
  match cs.AggregateMetrics with
  | some m =>
      if 0 < m.P95CPUCores ∧ 0 < m.P95MemoryBytes then m.P95MemoryBytes / (1024 * 1024 * 1024)
      else (cs.TotalEffectiveMemory : ℚ) / (1024 * 1024 * 1024)
  | none => (cs.TotalEffectiveMemory : ℚ) / (1024 * 1024 * 1024)

/-! ### Generic helpers shared by the embeddings (stable sort, indexed update) -/

/-- Stable insertion of one element: x is an earlier element being inserted
into the stable sort of the later elements, so it passes y only when y is
strictly less than x under lt. -/
def insertStable (lt : α → α → Bool) (x : α) : List α → List α
  | [] => [x]
  | y :: ys => if lt y x then y :: insertStable lt x ys else x :: y :: ys

/-- Stable sort with a strict-less predicate, the semantics of Go
sort.SliceStable: ascending under lt, ties keeping original order. -/
def sortStable (lt : α → α → Bool) : List α → List α
  | [] => []
  | x :: xs => insertStable lt x (sortStable lt xs)

/-- Apply f to the element at position i, the rest unchanged (a Go slice
element assignment). -/
def modifyAt (f : α → α) : List α → ℕ → List α
  | [], _ => []
  | x :: xs, 0 => f x :: xs
  | x :: xs, i + 1 => x :: modifyAt f xs i

/-- Pair each element with its position starting at i (a Go range loop with
index). -/
def withIdx : List α → ℕ → List (ℕ × α)
  | [], _ => []
  | x :: xs, i => (i, x) :: withIdx xs (i + 1)

/-! ### Bin packer (internal/simulation/bfd.go) -/

/-- simulation.daemonSetOverhead: total resources consumed by DaemonSets per
node. -/
def daemonSetOverhead (daemons : List WorkloadProfile) : ResourceQuantity :=
  daemons.foldl
    (fun t d =>
      { CPUMillis := t.CPUMillis + d.EffectiveCPUMillis,
        MemoryBytes := t.MemoryBytes + d.EffectiveMemoryBytes })
    { CPUMillis := 0, MemoryBytes := 0 }

/-- simulation.largestNodeCapacity: the componentwise maxima over templates,
starting from zero. -/
def largestNodeCapacity (templates : List NodeTemplate) : ℤ × ℤ :=
  templates.foldl
    (fun m t =>
      (if m.1 < t.AllocatableCPUMillis then t.AllocatableCPUMillis else m.1,
       if m.2 < t.AllocatableMemoryBytes then t.AllocatableMemoryBytes else m.2))
    (0, 0)

/-- simulation.dominance: max of the CPU and memory fractions relative to the
largest node. -/
def dominance (w : WorkloadProfile) (maxCPU maxMem : ℤ) : ℚ :=
  max ((w.EffectiveCPUMillis : ℚ) / (maxCPU : ℚ)) ((w.EffectiveMemoryBytes : ℚ) / (maxMem : ℚ))

/-- simulation.sortByDominance: stable sort, most demanding first; no-op when
the largest capacity is zero on either dimension. -/
def sortByDominance (workloads : List WorkloadProfile) (templates : List NodeTemplate) :
    List WorkloadProfile :=
  let m := largestNodeCapacity templates
  if m.1 = 0 ∨ m.2 = 0 then workloads
  else sortStable (fun a b => decide (dominance b m.1 m.2 < dominance a m.1 m.2)) workloads

/-- simulation.canFit: CPU, memory and pod count all admit w. -/
def canFit (n : nodeState) (w : WorkloadProfile) : Bool :=
  decide (w.EffectiveCPUMillis ≤ n.remainingCPU) &&
  decide (w.EffectiveMemoryBytes ≤ n.remainingMem) &&
  decide (n.podCount < n.template.MaxPods)

/-- simulation.compositeRemaining, embedded as the squared Euclidean norm of
the remaining fractions after placement (the source takes the square root,
which is strictly monotone on these nonnegative values, so every comparison
made on the result is unchanged); none is the math.MaxFloat64 branch for a
zero-capacity template. -/
def compositeRemaining (n : nodeState) (w : WorkloadProfile) : Option ℚ :=
  let alloc := n.template.AllocatableResources
  if alloc.CPUMillis = 0 ∨ alloc.MemoryBytes = 0 then none
  else
    let cpuAfter : ℚ := ((n.remainingCPU - w.EffectiveCPUMillis : ℤ) : ℚ) / (alloc.CPUMillis : ℚ)
    let memAfter : ℚ := ((n.remainingMem - w.EffectiveMemoryBytes : ℤ) : ℚ) / (alloc.MemoryBytes : ℚ)
    some (cpuAfter * cpuAfter + memAfter * memAfter)

/-- Comparison of two candidate scores as the source performs it, with none
standing for math.MaxFloat64 (both the initial best and the zero-capacity
score). -/
def ltScore : Option ℚ → Option ℚ → Bool
  | some a, b => ltSentinel a b
  | none, _ => false

/-- The best-fitting open node search of the placement loop of Pack: scan open
nodes in order, keep the index with the strictly smallest score among those
where w fits. -/
def findBestNode (nodes : List nodeState) (w : WorkloadProfile) : Option ℕ :=
  ((withIdx nodes 0).foldl
    (fun best p =>
      if canFit p.2 w then
        let s := compositeRemaining p.2 w
        if ltScore s best.2 then (some p.1, s) else best
      else best)
    ((none : Option ℕ), (none : Option ℚ))).1

/-- simulation.selectBestTemplate: the cheapest template (strict improvement
scan, on-demand price) whose first-node availability admits w. -/
def selectBestTemplate (templates : List NodeTemplate) (w : WorkloadProfile)
    (dsOverhead sysReserved : ResourceQuantity) : Option NodeTemplate :=
  (templates.foldl
    (fun best t =>
      let availCPU := t.AllocatableCPUMillis - dsOverhead.CPUMillis - sysReserved.CPUMillis
      let availMem := t.AllocatableMemoryBytes - dsOverhead.MemoryBytes - sysReserved.MemoryBytes
      if availCPU < w.EffectiveCPUMillis ∨ availMem < w.EffectiveMemoryBytes then best
      else if ltSentinel t.OnDemandPricePerHour best.2 then (some t, some t.OnDemandPricePerHour)
      else best)
    ((none : Option NodeTemplate), (none : Option ℚ))).1

/-- simulation.openNode: a fresh nodeState with DaemonSet overhead and system
reserved subtracted. -/
def openNode (tmpl : NodeTemplate) (dsOverhead sysReserved : ResourceQuantity) : nodeState :=
  { template := tmpl,
    workloads := [],
    remainingCPU := tmpl.AllocatableCPUMillis - dsOverhead.CPUMillis - sysReserved.CPUMillis,
    remainingMem := tmpl.AllocatableMemoryBytes - dsOverhead.MemoryBytes - sysReserved.MemoryBytes,
    podCount := 0 }

/-- simulation.place: put a workload onto a node. -/
def place (n : nodeState) (w : WorkloadProfile) : nodeState :=
  { n with
    workloads := n.workloads ++ [w],
    remainingCPU := n.remainingCPU - w.EffectiveCPUMillis,
    remainingMem := n.remainingMem - w.EffectiveMemoryBytes,
    podCount := n.podCount + 1 }

/-- The outer placement loop of Pack over the dominance-sorted workloads,
checking the cancellation oracle between iterations. -/
def packLoop (cancelled : ℕ → Bool) (input : PackInput) (dsOverhead : ResourceQuantity) :
    ℕ → List WorkloadProfile → List nodeState → List WorkloadProfile →
    Except Unit (List nodeState × List WorkloadProfile)
  | _, [], nodes, unschedulable => Except.ok (nodes, unschedulable)
  | i, w :: ws, nodes, unschedulable =>
    if cancelled i then Except.error ()
    else
      match findBestNode nodes w with
      | some j => packLoop cancelled input dsOverhead (i + 1) ws (modifyAt (place · w) nodes j) unschedulable
      | none =>
        if 0 < input.MaxNodes ∧ input.MaxNodes ≤ (nodes.length : ℤ) then
          packLoop cancelled input dsOverhead (i + 1) ws nodes (unschedulable ++ [w])
        else
          match selectBestTemplate input.NodeTemplates w dsOverhead input.SystemReserved with
          | none => packLoop cancelled input dsOverhead (i + 1) ws nodes (unschedulable ++ [w])
          | some tmpl =>
            packLoop cancelled input dsOverhead (i + 1) ws
              (nodes ++ [place (openNode tmpl dsOverhead input.SystemReserved) w]) unschedulable

/-- The placement pass of Pack: DaemonSet overhead, dominance sort, then the
placement loop. -/
def runPlacement (cancelled : ℕ → Bool) (input : PackInput) :
    Except Unit (List nodeState × List WorkloadProfile) :=
  let dsOverhead := daemonSetOverhead input.DaemonSets
  packLoop cancelled input dsOverhead 0 (sortByDominance input.Workloads input.NodeTemplates) [] []

/-- Consumed CPU of a node in progress, the spot-suitability key of
applySpotRatio. -/
def consumedCPU (n : nodeState) : ℤ :=
  n.template.AllocatableCPUMillis - n.remainingCPU

/-- Replace the capacity type of a node's template. -/
def setCapacity (n : nodeState) (c : CapacityType) : nodeState :=
  { n with template := { n.template with CapacityType := c } }

/-- The sort key of applySpotRatio: consumed CPU of the node at a given
index. -/
def spotKey (nodes : List nodeState) (a : ℕ) : ℤ :=
  consumedCPU (nodes.getD a default)

/-- The index sort of applySpotRatio: node indices, stable-sorted ascending by
consumed CPU. -/
def spotSortedIndices (nodes : List nodeState) : List ℕ :=
  sortStable (fun a b => decide (spotKey nodes a < spotKey nodes b)) (List.range nodes.length)

/-- The marking loop of applySpotRatio: walk the sorted indices with their
rank, making the first spotCount nodes spot and the rest on-demand. -/
def applySpotMark (nodes : List nodeState) (spotCount : ℤ) : List nodeState :=
  (withIdx (spotSortedIndices nodes) 0).foldl
    (fun acc p =>
      modifyAt (setCapacity · (if (p.1 : ℤ) < spotCount then CapacityType.spot else CapacityType.onDemand))
        acc p.2)
    nodes

/-- simulation.applySpotRatio: spotCount = round(len × ratio); return early
when it is not positive, cap it at the node count, stable-sort the node
indices ascending by consumed CPU, mark the first spotCount as spot and the
rest as on-demand. -/
def applySpotRatio (nodes : List nodeState) (spotRatio : ℚ) : List nodeState :=
  let spotCount : ℤ := goRound ((nodes.length : ℚ) * spotRatio)
  if spotCount ≤ 0 then nodes
  else applySpotMark nodes (min spotCount (nodes.length : ℤ))

/-- The result-building loop at the end of Pack: used resources from the
remaining counters, utilizations only for positive allocatable capacity. -/
def buildAllocation (n : nodeState) : NodeAllocation :=
  let alloc := n.template.AllocatableResources
  let usedCPU := alloc.CPUMillis - n.remainingCPU
  let usedMem := alloc.MemoryBytes - n.remainingMem
  { Template := n.template,
    Workloads := n.workloads,
    UsedCPU := usedCPU,
    UsedMem := usedMem,
    PodCount := n.podCount,
    CPUUtilization := if 0 < alloc.CPUMillis then (usedCPU : ℚ) / (alloc.CPUMillis : ℚ) else 0,
    MemUtilization := if 0 < alloc.MemoryBytes then (usedMem : ℚ) / (alloc.MemoryBytes : ℚ) else 0 }

/-- simulation.BestFitDecreasing.Pack as it stands in the packer source:
empty template list short-circuits, then placement, the spot ratio pass, and
result building. -/
def Pack (cancelled : ℕ → Bool) (input : PackInput) : Except Unit PackResult :=
  if input.NodeTemplates = [] then
    Except.ok { Nodes := [], UnschedulablePods := input.Workloads }
  else
    match runPlacement cancelled input with
    | Except.error e => Except.error e
    | Except.ok (nodes, unschedulable) =>
      let nodes := if 0 < input.SpotRatio then applySpotRatio nodes input.SpotRatio else nodes
      Except.ok { Nodes := nodes.map buildAllocation, UnschedulablePods := unschedulable }

/-- Modelled from the spec: the cheapest available template, the template of
minimal on-demand price (first one on ties), used to build HA padding nodes.
The MinNodes enforcement inside Pack is absent from the packer source
snapshot although its tests, the engine and the configuration all carry the
field, so this part is taken from the spec text. -/
def cheapestTemplate (templates : List NodeTemplate) : Option NodeTemplate :=
  (templates.foldl
    (fun best t =>
      if ltSentinel t.OnDemandPricePerHour best.2 then (some t, some t.OnDemandPricePerHour)
      else best)
    ((none : Option NodeTemplate), (none : Option ℚ))).1

/-- Modelled from the spec: an HA padding node built from a template, with no
workloads and zero utilisation (nothing consumed). -/
def emptyPaddingNode (tmpl : NodeTemplate) : nodeState :=
  { template := tmpl,
    workloads := [],
    remainingCPU := tmpl.AllocatableCPUMillis,
    remainingMem := tmpl.AllocatableMemoryBytes,
    podCount := 0 }

/-- Modelled from the spec: HA padding.  After the placement pass, if the open
node count is below min_nodes, append empty nodes built from the cheapest
available template until the count equals min_nodes. -/
def padToMinNodes (nodes : List nodeState) (templates : List NodeTemplate) (minNodes : ℤ) :
    List nodeState :=
  match cheapestTemplate templates with
  | none => nodes
  | some tmpl => nodes ++ List.replicate (minNodes - (nodes.length : ℤ)).toNat (emptyPaddingNode tmpl)

/-- Modelled from the spec: Pack with the MinNodes enforcement that the packer
tests and the engine rely on; identical to Pack except that HA padding runs
after the placement pass and before spot assignment. -/
def PackWithMinNodes (cancelled : ℕ → Bool) (input : PackInput) : Except Unit PackResult :=
  if input.NodeTemplates = [] then
    Except.ok { Nodes := [], UnschedulablePods := input.Workloads }
  else
    match runPlacement cancelled input with
    | Except.error e => Except.error e
    | Except.ok (nodes, unschedulable) =>
      let nodes := padToMinNodes nodes input.NodeTemplates input.MinNodes
      let nodes := if 0 < input.SpotRatio then applySpotRatio nodes input.SpotRatio else nodes
      Except.ok { Nodes := nodes.map buildAllocation, UnschedulablePods := unschedulable }

/-! ### Fragmentation (internal/simulation/fragmentation.go) -/

/-- The loop body accumulator of AnalyzeFragmentation: stranded CPU, stranded
memory, balance sum, underutilized count. -/
def fragStep (acc : ℤ × ℤ × ℚ × ℕ) (n : NodeAllocation) : ℤ × ℤ × ℚ × ℕ :=
  let alloc := n.Template.AllocatableResources
  if alloc.CPUMillis = 0 ∨ alloc.MemoryBytes = 0 then acc
  else
    let cpuUtil : ℚ := (n.UsedCPU : ℚ) / (alloc.CPUMillis : ℚ)
    let memUtil : ℚ := (n.UsedMem : ℚ) / (alloc.MemoryBytes : ℚ)
    let strandedCPU := if 85/100 < memUtil ∧ cpuUtil < 50/100
      then acc.1 + (alloc.CPUMillis - n.UsedCPU) else acc.1
    let strandedMem := if 85/100 < cpuUtil ∧ memUtil < 50/100
      then acc.2.1 + (alloc.MemoryBytes - n.UsedMem) else acc.2.1
    let balance := acc.2.2.1 + (1 - |cpuUtil - memUtil|)
    let under := if cpuUtil < 50/100 ∨ memUtil < 50/100 then acc.2.2.2 + 1 else acc.2.2.2
    (strandedCPU, strandedMem, balance, under)

/-- simulation.AnalyzeFragmentation: empty node list yields balance 1.0 by
convention, otherwise accumulate per node (skipping zero-capacity templates)
and divide by the total node count. -/
def AnalyzeFragmentation (nodes : List NodeAllocation) : FragmentationReport :=
  if nodes = [] then
    { StrandedCPUMillis := 0, StrandedMemoryBytes := 0,
      UnderutilizedNodeFraction := 0, ResourceBalanceScore := 1 }
  else
    let acc := nodes.foldl fragStep (0, 0, 0, 0)
    { StrandedCPUMillis := acc.1,
      StrandedMemoryBytes := acc.2.1,
      UnderutilizedNodeFraction := (acc.2.2.2 : ℚ) / (nodes.length : ℚ),
      ResourceBalanceScore := acc.2.2.1 / (nodes.length : ℚ) }

/-! ### Scorer and ranking (internal/simulation engine/scorer source) -/

/-- model.InstanceConfig (the fields the scorer reads). -/
structure InstanceConfig where
  InstanceTypes : List NodeTemplate
  SpotRatio : ℚ
  Strategy : String
deriving DecidableEq, Repr

/-- model.ScalingEfficiency. -/
structure ScalingEfficiency where
  ScalingRatio : ℚ
  ObservedMinNodes : ℤ
  ObservedMaxNodes : ℤ
  EstTroughNodes : ℤ
  EstTroughCPUUtil : ℚ
deriving DecidableEq, Repr

/-- model.SimulationResult (the fields the scorer reads). -/
structure SimulationResult where
  InstanceConfig : InstanceConfig
  Nodes : List NodeAllocation
  TotalNodes : ℤ
  TotalCost : ℚ
  TotalCPU : ℤ
  TotalMemory : ℤ
  UsedCPU : ℤ
  UsedMemory : ℤ
  AvgCPUUtilization : ℚ
  AvgMemUtilization : ℚ
  Fragmentation : FragmentationReport
  UnschedulablePods : List WorkloadProfile
  ScalingEfficiency : Option ScalingEfficiency
deriving DecidableEq, Repr

/-- model.ScoringWeights. -/
structure ScoringWeights where
  Cost : ℚ
  Utilization : ℚ
  Fragmentation : ℚ
  Resilience : ℚ
deriving DecidableEq, Repr

/-- model.Recommendation (rationale and warning strings omitted). -/
structure Recommendation where
  Rank : ℤ
  SimulationResult : SimulationResult
  MonthlyCost : ℚ
  CostVsBaseline : ℚ
  AnnualSavings : ℚ
  OverallScore : ℚ
  CostScore : ℚ
  UtilizationScore : ℚ
  ResilienceScore : ℚ
  FragmentationScore : ℚ
deriving DecidableEq, Repr

/-- simulation.Scorer (the AggregateMetrics field, unread by scoring, is
omitted). -/
structure Scorer where
  Weights : ScoringWeights
  DaemonSetCount : ℤ
deriving DecidableEq, Repr

/-- The resilience base of Scorer.score, bucketed by total node count. -/
def resilienceBase (totalNodes : ℤ) : ℚ :=
  if totalNodes ≤ 1 then 20
  else if totalNodes ≤ 2 then 50
  else if totalNodes ≤ 5 then 90
  else if totalNodes ≤ 15 then 100
  else if totalNodes ≤ 30 then 85
  else if totalNodes ≤ 50 then 70
  else if totalNodes ≤ 100 then 55
  else 40

/-- The resilience part of Scorer.score: the node-count base, then the
DaemonSet overhead, unschedulable-pod and trough-utilisation penalties in
order, each clamped at 0. -/
def resilienceScoreOf (dsCount : ℤ) (r : SimulationResult) : ℚ :=
  let res0 := resilienceBase r.TotalNodes
  let res1 :=
    if 0 < dsCount ∧ 5 < r.TotalNodes then
      let dsOverheadRatio := (dsCount : ℚ) * (r.TotalNodes : ℚ) / 100
      max 0 (res0 - min (dsOverheadRatio * 5) 20)
    else res0
  let res2 :=
    if 0 < r.UnschedulablePods.length then
      max 0 (res1 - min ((r.UnschedulablePods.length : ℚ) * 10) 50)
    else res1
  match r.ScalingEfficiency with
  | some se =>
    if se.EstTroughCPUUtil < 30/100 then
      max 0 (res2 - (30/100 - se.EstTroughCPUUtil) / (30/100) * 25)
    else res2
  | none => res2

/-- Scorer.score: one Recommendation from one SimulationResult given the cost
bounds of the batch.  Rank is assigned later by RankResults (Go zero value 0
here). -/
def Scorer.score (s : Scorer) (r : SimulationResult) (baseline : Option SimulationResult)
    (minCost maxCost : ℚ) : Recommendation :=
  let costRange := maxCost - minCost
  let costScore := if 0 < costRange then (1 - (r.TotalCost - minCost) / costRange) * 100 else 100
  let baselineCmp :=
    match baseline with
    | some b =>
      if 0 < b.TotalCost then
        (((r.TotalCost - b.TotalCost) / b.TotalCost) * 100, (b.TotalCost - r.TotalCost) * 12)
      else ((0 : ℚ), (0 : ℚ))
    | none => ((0 : ℚ), (0 : ℚ))
  let utilizationScore := ((r.AvgCPUUtilization + r.AvgMemUtilization) / 2) * 100
  let fragmentationScore :=
    r.Fragmentation.ResourceBalanceScore * 100 * (1 - r.Fragmentation.UnderutilizedNodeFraction)
  let res3 := resilienceScoreOf s.DaemonSetCount r
  { Rank := 0,
    SimulationResult := r,
    MonthlyCost := r.TotalCost,
    CostVsBaseline := baselineCmp.1,
    AnnualSavings := baselineCmp.2,
    OverallScore := s.Weights.Cost * costScore + s.Weights.Utilization * utilizationScore +
      s.Weights.Fragmentation * fragmentationScore + s.Weights.Resilience * res3,
    CostScore := costScore,
    UtilizationScore := utilizationScore,
    ResilienceScore := res3,
    FragmentationScore := fragmentationScore }

/-- The minimum total cost scan at the start of RankResults. -/
def minCostOf (first : ℚ) (rest : List SimulationResult) : ℚ :=
  rest.foldl (fun m r => if r.TotalCost < m then r.TotalCost else m) first

/-- The maximum total cost scan at the start of RankResults. -/
def maxCostOf (first : ℚ) (rest : List SimulationResult) : ℚ :=
  rest.foldl (fun m r => if m < r.TotalCost then r.TotalCost else m) first

/-- Scorer.RankResults: score each result against the batch cost bounds, sort
by overall score descending with a stable sort, and assign ranks 1..N. -/
def Scorer.RankResults (s : Scorer) (results : List SimulationResult)
    (baseline : Option SimulationResult) : List Recommendation :=
  match results with
  | [] => []
  | r0 :: rest =>
    let minCost := minCostOf r0.TotalCost rest
    let maxCost := maxCostOf r0.TotalCost rest
    let recs := (r0 :: rest).map (fun r => s.score r baseline minCost maxCost)
    let sorted := sortStable (fun a b => decide (b.OverallScore < a.OverallScore)) recs
    (withIdx sorted 0).map (fun p => { p.2 with Rank := (p.1 : ℤ) + 1 })

/-! ### Lemmas about the generic helpers -/

theorem insertStable_perm (lt : α → α → Bool) (x : α) (l : List α) :
    List.Perm (insertStable lt x l) (x :: l) := by
  induction l with
  | nil => simp [insertStable]
  | cons y ys ih =>
    simp only [insertStable]
    by_cases h : lt y x
    · simp only [h, if_true]
      exact List.Perm.trans (List.Perm.cons y ih) (List.Perm.swap x y ys)
    · simp [h]

theorem sortStable_perm (lt : α → α → Bool) (l : List α) :
    List.Perm (sortStable lt l) l := by
  induction l with
  | nil => simp [sortStable]
  | cons x xs ih =>
    exact List.Perm.trans (insertStable_perm lt x (sortStable lt xs)) (List.Perm.cons x ih)

theorem insertStable_pairwise (lt : α → α → Bool)
    (hasym : ∀ a b, lt a b = true → lt b a = false)
    (hntrans : ∀ a b c, lt b a = false → lt c b = false → lt c a = false)
    (x : α) (l : List α) (hl : l.Pairwise (fun a b => lt b a = false)) :
    (insertStable lt x l).Pairwise (fun a b => lt b a = false) := by
  induction l with
  | nil => simp [insertStable]
  | cons y ys ih =>
    rcases List.pairwise_cons.mp hl with ⟨hy, hys⟩
    simp only [insertStable]
    by_cases h : lt y x
    · simp only [h, if_true]
      refine List.pairwise_cons.mpr ⟨?_, ih hys⟩
      intro z hz
      rcases List.mem_cons.mp ((insertStable_perm lt x ys).mem_iff.mp hz) with rfl | hz
      · exact hasym y z h
      · exact hy z hz
    · have hxy : lt y x = false := Bool.eq_false_iff.mpr h
      simp only [h, if_false]
      refine List.pairwise_cons.mpr ⟨?_, hl⟩
      intro z hz
      rcases List.mem_cons.mp hz with rfl | hz
      · exact hxy
      · exact hntrans x y z hxy (hy z hz)

theorem sortStable_pairwise (lt : α → α → Bool)
    (hasym : ∀ a b, lt a b = true → lt b a = false)
    (hntrans : ∀ a b c, lt b a = false → lt c b = false → lt c a = false)
    (l : List α) :
    (sortStable lt l).Pairwise (fun a b => lt b a = false) := by
  induction l with
  | nil => simp [sortStable]
  | cons x xs ih => exact insertStable_pairwise lt hasym hntrans x _ ih

theorem modifyAt_length (f : α → α) (l : List α) (i : ℕ) :
    (modifyAt f l i).length = l.length := by
  induction l generalizing i with
  | nil => simp [modifyAt]
  | cons x xs ih =>
    cases i with
    | zero => simp [modifyAt]
    | succ j => simp [modifyAt, ih]

theorem modifyAt_getElem?_self (f : α → α) (l : List α) (i : ℕ) :
    (modifyAt f l i)[i]? = (l[i]?).map f := by
  induction l generalizing i with
  | nil => simp [modifyAt]
  | cons x xs ih =>
    cases i with
    | zero => simp [modifyAt]
    | succ j => simpa [modifyAt] using ih j

theorem modifyAt_getElem?_ne (f : α → α) (l : List α) (i k : ℕ) (h : i ≠ k) :
    (modifyAt f l i)[k]? = l[k]? := by
  induction l generalizing i k with
  | nil => simp [modifyAt]
  | cons x xs ih =>
    cases i with
    | zero =>
      cases k with
      | zero => exact absurd rfl h
      | succ k => simp [modifyAt]
    | succ j =>
      cases k with
      | zero => simp [modifyAt]
      | succ k => simpa [modifyAt] using ih j k (by omega)

theorem withIdx_map_snd (l : List α) (i : ℕ) :
    (withIdx l i).map Prod.snd = l := by
  induction l generalizing i with
  | nil => simp [withIdx]
  | cons x xs ih => simp [withIdx, ih]

theorem mem_withIdx (l : List α) (i : ℕ) (p : ℕ × α) :
    p ∈ withIdx l i ↔ ∃ k, i + k = p.1 ∧ l[k]? = some p.2 := by
  induction l generalizing i with
  | nil => simp [withIdx]
  | cons x xs ih =>
    obtain ⟨p1, p2⟩ := p
    simp only [withIdx, List.mem_cons, ih (i + 1), Prod.mk.injEq]
    constructor
    · rintro (⟨h1, h2⟩ | ⟨k, hk, hget⟩)
      · exact ⟨0, by simp [h1.symm], by simp [h2]⟩
      · exact ⟨k + 1, by omega, by simpa using hget⟩
    · rintro ⟨k, hk, hget⟩
      cases k with
      | zero =>
        left
        simp only [List.getElem?_cons_zero, Option.some.injEq] at hget
        simp only [Nat.add_zero] at hk
        exact ⟨hk.symm, hget.symm⟩
      | succ k =>
        right
        exact ⟨k, by omega, by simpa using hget⟩

theorem range_countP_lt (n m : ℕ) :
    (List.range n).countP (fun j => decide (j < m)) = min m n := by
  induction n with
  | zero => simp
  | succ k ih =>
    rw [List.range_succ, List.countP_append]
    by_cases h : k < m
    · simp only [List.countP_cons, List.countP_nil, decide_eq_true_eq]
      simp [h, ih]
      omega
    · simp only [List.countP_cons, List.countP_nil, decide_eq_true_eq]
      simp [h, ih]
      omega

/-- Lexicographic order on (key, position): the precise meaning of a stable
ascending sort of positions by key value, ties keeping insertion order. -/
def lexLt (key : ℕ → ℤ) (a b : ℕ) : Prop :=
  key a < key b ∨ (key a = key b ∧ a < b)

theorem insertStable_lex (key : ℕ → ℤ) (x : ℕ) (l : List ℕ)
    (hl : l.Pairwise (lexLt key)) (hx : ∀ y ∈ l, x < y) :
    (insertStable (fun a b => decide (key a < key b)) x l).Pairwise (lexLt key) := by
  induction l with
  | nil => simp [insertStable]
  | cons y ys ih =>
    rcases List.pairwise_cons.mp hl with ⟨hy, hys⟩
    simp only [insertStable]
    by_cases h : key y < key x
    · rw [if_pos (by simpa using h)]
      refine List.pairwise_cons.mpr ⟨?_, ih hys (fun z hz => hx z (List.mem_cons_of_mem y hz))⟩
      intro z hz
      rcases List.mem_cons.mp
        ((insertStable_perm (fun a b => decide (key a < key b)) x ys).mem_iff.mp hz) with rfl | hz
      · exact Or.inl h
      · exact hy z hz
    · rw [if_neg (by simpa using h)]
      refine List.pairwise_cons.mpr ⟨?_, hl⟩
      intro z hz
      rcases List.mem_cons.mp hz with rfl | hz
      · rcases lt_or_eq_of_le (le_of_not_lt h) with hlt | heq
        · exact Or.inl hlt
        · exact Or.inr ⟨heq, hx z (List.mem_cons_self z ys)⟩
      · have hyz := hy z hz
        have hky : key x ≤ key y := le_of_not_lt h
        have hkz : key y ≤ key z := by
          rcases hyz with h1 | ⟨h1, _⟩
          · exact le_of_lt h1
          · exact le_of_eq h1
        rcases lt_or_eq_of_le (le_trans hky hkz) with hlt | heq
        · exact Or.inl hlt
        · exact Or.inr ⟨heq, hx z (List.mem_cons_of_mem y hz)⟩

theorem sortStable_lex (key : ℕ → ℤ) (l : List ℕ) (hl : l.Pairwise (· < ·)) :
    (sortStable (fun a b => decide (key a < key b)) l).Pairwise (lexLt key) := by
  induction l with
  | nil => simp [sortStable]
  | cons x xs ih =>
    rcases List.pairwise_cons.mp hl with ⟨hx, hxs⟩
    refine insertStable_lex key x _ (ih hxs) ?_
    intro y hy
    exact hx y ((sortStable_perm _ xs).mem_iff.mp hy)

theorem nodup_map_indexOf (l : List ℕ) (h : l.Nodup) :
    l.map (fun a => l.indexOf a) = List.range l.length := by
  apply List.ext_getElem?
  intro i
  by_cases hi : i < l.length
  · rw [List.getElem?_map, List.getElem?_eq_getElem hi, List.getElem?_range hi,
      Option.map_some', List.indexOf_getElem h i hi]
  · have h1 : l[i]? = none := List.getElem?_eq_none (by omega)
    have h2 : (List.range l.length)[i]? = none := by
      refine List.getElem?_eq_none ?_
      simpa using le_of_not_lt hi
    rw [List.getElem?_map, h1, h2]
    rfl

/-! ### The spot marking fold of applySpotRatio -/

theorem markFold_length (g : ℕ → CapacityType) (pairs : List (ℕ × ℕ)) (acc : List nodeState) :
    (pairs.foldl (fun a p => modifyAt (setCapacity · (g p.1)) a p.2) acc).length = acc.length := by
  induction pairs generalizing acc with
  | nil => rfl
  | cons p rest ih => rw [List.foldl_cons, ih, modifyAt_length]

theorem markFold_getElem?_not_mem (g : ℕ → CapacityType) (pairs : List (ℕ × ℕ))
    (acc : List nodeState) (k : ℕ) (hk : ∀ p ∈ pairs, p.2 ≠ k) :
    (pairs.foldl (fun a p => modifyAt (setCapacity · (g p.1)) a p.2) acc)[k]? = acc[k]? := by
  induction pairs generalizing acc with
  | nil => rfl
  | cons p rest ih =>
    rw [List.foldl_cons, ih _ (fun q hq => hk q (List.mem_cons_of_mem p hq))]
    exact modifyAt_getElem?_ne _ acc p.2 k (hk p (List.mem_cons_self p rest))

theorem markFold_getElem?_mem (g : ℕ → CapacityType) (pairs : List (ℕ × ℕ))
    (acc : List nodeState) (i k : ℕ) (hik : (i, k) ∈ pairs)
    (hnd : (pairs.map Prod.snd).Nodup) :
    (pairs.foldl (fun a p => modifyAt (setCapacity · (g p.1)) a p.2) acc)[k]? =
      (acc[k]?).map (setCapacity · (g i)) := by
  induction pairs generalizing acc with
  | nil => simp at hik
  | cons p rest ih =>
    rw [List.map_cons, List.nodup_cons] at hnd
    rcases List.mem_cons.mp hik with heq | hmem
    · subst heq
      rw [List.foldl_cons,
        markFold_getElem?_not_mem g rest _ k
          (fun q hq hqk => hnd.1 (by
            have hm : q.2 ∈ rest.map Prod.snd := List.mem_map_of_mem Prod.snd hq
            rw [hqk] at hm
            exact hm))]
      exact modifyAt_getElem?_self _ acc k
    · have hk : p.2 ≠ k := by
        intro hc
        exact hnd.1 (hc ▸ (List.mem_map_of_mem Prod.snd hmem : (i, k).2 ∈ rest.map Prod.snd))
      rw [List.foldl_cons, ih _ hmem hnd.2, modifyAt_getElem?_ne _ acc p.2 k hk]

/-! ### The behaviour of applySpotRatio -/

/-- Rank of a node index in the spot-suitability order. -/
def spotPos (nodes : List nodeState) (j : ℕ) : ℕ :=
  (spotSortedIndices nodes).indexOf j

theorem setCapacity_self (n : nodeState) : setCapacity n n.template.CapacityType = n := rfl

theorem spotSortedIndices_perm (nodes : List nodeState) :
    List.Perm (spotSortedIndices nodes) (List.range nodes.length) :=
  sortStable_perm _ _

theorem spotSortedIndices_nodup (nodes : List nodeState) :
    (spotSortedIndices nodes).Nodup :=
  ((spotSortedIndices_perm nodes).nodup_iff).mpr (List.nodup_range nodes.length)

theorem mem_spotSortedIndices (nodes : List nodeState) (j : ℕ) (hj : j < nodes.length) :
    j ∈ spotSortedIndices nodes :=
  (spotSortedIndices_perm nodes).mem_iff.mpr (List.mem_range.mpr hj)

theorem spotSortedIndices_lex (nodes : List nodeState) :
    (spotSortedIndices nodes).Pairwise (lexLt (spotKey nodes)) :=
  sortStable_lex (spotKey nodes) _ (List.pairwise_lt_range nodes.length)

theorem spotPos_lt (nodes : List nodeState) (j : ℕ) (hj : j < nodes.length) :
    spotPos nodes j < nodes.length := by
  have h := List.indexOf_lt_length.mpr (mem_spotSortedIndices nodes j hj)
  rwa [(spotSortedIndices_perm nodes).length_eq, List.length_range] at h

theorem applySpotMark_length (nodes : List nodeState) (sc : ℤ) :
    (applySpotMark nodes sc).length = nodes.length := by
  unfold applySpotMark
  exact markFold_length
    (fun i => if (i : ℤ) < sc then CapacityType.spot else CapacityType.onDemand)
    (withIdx (spotSortedIndices nodes) 0) nodes

theorem applySpotMark_getElem? (nodes : List nodeState) (sc : ℤ) (j : ℕ)
    (hj : j < nodes.length) :
    (applySpotMark nodes sc)[j]? = (nodes[j]?).map
      (setCapacity · (if (spotPos nodes j : ℤ) < sc then CapacityType.spot
        else CapacityType.onDemand)) := by
  apply markFold_getElem?_mem
    (g := fun i => if (i : ℤ) < sc then CapacityType.spot else CapacityType.onDemand)
  · rw [mem_withIdx]
    refine ⟨spotPos nodes j, by simp, ?_⟩
    exact List.getElem?_indexOf (mem_spotSortedIndices nodes j hj)
  · rw [withIdx_map_snd]
    exact spotSortedIndices_nodup nodes

theorem applySpotRatio_length (nodes : List nodeState) (q : ℚ) :
    (applySpotRatio nodes q).length = nodes.length := by
  unfold applySpotRatio
  by_cases h : goRound ((nodes.length : ℚ) * q) ≤ 0
  · simp [h]
  · simp [h, applySpotMark_length]

/-- Every node of the spot pass output is the corresponding input node with
only its capacity type replaced. -/
theorem applySpotRatio_getElem?_spec (nodes : List nodeState) (q : ℚ) (j : ℕ)
    (hj : j < nodes.length) :
    ∃ c, (applySpotRatio nodes q)[j]? = (nodes[j]?).map (setCapacity · c) := by
  unfold applySpotRatio
  by_cases h : goRound ((nodes.length : ℚ) * q) ≤ 0
  · refine ⟨(nodes.getD j default).template.CapacityType, ?_⟩
    simp only [h, if_true]
    simp [List.getElem?_eq_getElem hj, List.getD_eq_getElem nodes default hj, setCapacity_self]
  · refine ⟨if (spotPos nodes j : ℤ) < min (goRound ((nodes.length : ℚ) * q)) (nodes.length : ℤ)
      then CapacityType.spot else CapacityType.onDemand, ?_⟩
    simp only [h, if_false]
    exact applySpotMark_getElem? nodes _ j hj

theorem applySpotRatio_map_workloads (nodes : List nodeState) (q : ℚ) :
    (applySpotRatio nodes q).map nodeState.workloads = nodes.map nodeState.workloads := by
  apply List.ext_getElem?
  intro i
  by_cases hi : i < nodes.length
  · obtain ⟨c, hc⟩ := applySpotRatio_getElem?_spec nodes q i hi
    rw [List.getElem?_map, List.getElem?_map, hc, List.getElem?_eq_getElem hi]
    rfl
  · rw [List.getElem?_map, List.getElem?_map,
      List.getElem?_eq_none (by rw [applySpotRatio_length]; omega),
      List.getElem?_eq_none (by omega)]

/-! ### Placement loop machinery -/

/-- Sum of effective CPU demands of a workload list. -/
def sumEffCPU (ws : List WorkloadProfile) : ℤ :=
  (ws.map WorkloadProfile.EffectiveCPUMillis).sum

/-- Sum of effective memory demands of a workload list. -/
def sumEffMem (ws : List WorkloadProfile) : ℤ :=
  (ws.map WorkloadProfile.EffectiveMemoryBytes).sum

/-- All workloads placed across a list of node states, in node order. -/
def allPlaced (nodes : List nodeState) : List WorkloadProfile :=
  (nodes.map nodeState.workloads).flatten

theorem sumEffCPU_append (a b : List WorkloadProfile) :
    sumEffCPU (a ++ b) = sumEffCPU a + sumEffCPU b := by
  simp [sumEffCPU]

theorem sumEffMem_append (a b : List WorkloadProfile) :
    sumEffMem (a ++ b) = sumEffMem a + sumEffMem b := by
  simp [sumEffMem]

theorem sumEffCPU_singleton (w : WorkloadProfile) : sumEffCPU [w] = w.EffectiveCPUMillis := by
  simp [sumEffCPU]

theorem sumEffMem_singleton (w : WorkloadProfile) : sumEffMem [w] = w.EffectiveMemoryBytes := by
  simp [sumEffMem]

theorem mem_modifyAt [Inhabited α] (f : α → α) (l : List α) (j : ℕ) (x : α)
    (hx : x ∈ modifyAt f l j) :
    x ∈ l ∨ (j < l.length ∧ x = f (l.getD j default)) := by
  induction l generalizing j with
  | nil => simp [modifyAt] at hx
  | cons y ys ih =>
    cases j with
    | zero =>
      rcases List.mem_cons.mp hx with rfl | hmem
      · exact Or.inr ⟨by simp, by simp [List.getD]⟩
      · exact Or.inl (List.mem_cons_of_mem y hmem)
    | succ k =>
      rcases List.mem_cons.mp hx with rfl | hmem
      · exact Or.inl (List.mem_cons_self x ys)
      · rcases ih k hmem with h | ⟨hk, hx⟩
        · exact Or.inl (List.mem_cons_of_mem y h)
        · exact Or.inr ⟨by simpa using hk, by simpa [List.getD] using hx⟩

theorem allPlaced_modifyAt_place (nodes : List nodeState) (j : ℕ) (w : WorkloadProfile)
    (hj : j < nodes.length) :
    List.Perm (allPlaced (modifyAt (place · w) nodes j)) (w :: allPlaced nodes) := by
  induction nodes generalizing j with
  | nil => simp at hj
  | cons n ns ih =>
    cases j with
    | zero =>
      simp only [modifyAt, allPlaced, List.map_cons, List.flatten_cons, place]
      rw [List.append_assoc]
      exact List.perm_middle
    | succ k =>
      simp only [modifyAt, allPlaced, List.map_cons, List.flatten_cons]
      have hk : k < ns.length := by simpa using hj
      exact List.Perm.trans (List.Perm.append_left n.workloads (ih k hk)) List.perm_middle

theorem findBestNode_aux (w : WorkloadProfile) (l : List (ℕ × nodeState))
    (acc : Option ℕ × Option ℚ) (j : ℕ)
    (h : (l.foldl
      (fun best p =>
        if canFit p.2 w then
          let s := compositeRemaining p.2 w
          if ltScore s best.2 then (some p.1, s) else best
        else best)
      acc).1 = some j) :
    acc.1 = some j ∨ ∃ p ∈ l, p.1 = j ∧ canFit p.2 w = true := by
  induction l generalizing acc with
  | nil => exact Or.inl h
  | cons p rest ih =>
    rw [List.foldl_cons] at h
    rcases ih _ h with hacc | ⟨q, hq, hqj, hfit⟩
    · by_cases hcf : canFit p.2 w
      · simp only [hcf, if_true] at hacc
        by_cases hlt : ltScore (compositeRemaining p.2 w) acc.2
        · simp only [hlt, if_true] at hacc
          exact Or.inr ⟨p, List.mem_cons_self p rest, by simpa using hacc, hcf⟩
        · simp only [hlt, if_false] at hacc
          exact Or.inl hacc
      · simp only [hcf, if_false] at hacc
        exact Or.inl hacc
    · exact Or.inr ⟨q, List.mem_cons_of_mem p hq, hqj, hfit⟩

theorem findBestNode_spec (nodes : List nodeState) (w : WorkloadProfile) (j : ℕ)
    (h : findBestNode nodes w = some j) :
    j < nodes.length ∧ canFit (nodes.getD j default) w = true := by
  rcases findBestNode_aux w (withIdx nodes 0) (none, none) j h with hacc | ⟨p, hp, hpj, hfit⟩
  · simp at hacc
  · rcases (mem_withIdx nodes 0 p).mp hp with ⟨k, hk0, hget⟩
    have hkj : k = j := by omega
    subst hkj
    have hklt : k < nodes.length := by
      by_contra hc
      rw [List.getElem?_eq_none (by omega)] at hget
      simp at hget
    refine ⟨hklt, ?_⟩
    rw [List.getElem?_eq_getElem hklt] at hget
    have : nodes[k] = p.2 := by simpa using hget
    rw [List.getD_eq_getElem nodes default hklt, this]
    exact hfit

theorem selectBestTemplate_aux (w : WorkloadProfile) (dsOverhead sysReserved : ResourceQuantity)
    (l : List NodeTemplate) (acc : Option NodeTemplate × Option ℚ) (t : NodeTemplate)
    (h : (l.foldl
      (fun best t =>
        let availCPU := t.AllocatableCPUMillis - dsOverhead.CPUMillis - sysReserved.CPUMillis
        let availMem := t.AllocatableMemoryBytes - dsOverhead.MemoryBytes - sysReserved.MemoryBytes
        if availCPU < w.EffectiveCPUMillis ∨ availMem < w.EffectiveMemoryBytes then best
        else if ltSentinel t.OnDemandPricePerHour best.2 then (some t, some t.OnDemandPricePerHour)
        else best)
      acc).1 = some t) :
    acc.1 = some t ∨
      (t ∈ l ∧
        w.EffectiveCPUMillis ≤ t.AllocatableCPUMillis - dsOverhead.CPUMillis - sysReserved.CPUMillis ∧
        w.EffectiveMemoryBytes ≤ t.AllocatableMemoryBytes - dsOverhead.MemoryBytes - sysReserved.MemoryBytes) := by
  induction l generalizing acc with
  | nil => exact Or.inl h
  | cons u rest ih =>
    rw [List.foldl_cons] at h
    rcases ih _ h with hacc | ⟨hmem, hc, hm⟩
    · by_cases hfits : u.AllocatableCPUMillis - dsOverhead.CPUMillis - sysReserved.CPUMillis <
          w.EffectiveCPUMillis ∨
          u.AllocatableMemoryBytes - dsOverhead.MemoryBytes - sysReserved.MemoryBytes <
          w.EffectiveMemoryBytes
      · simp only [hfits, if_true] at hacc
        exact Or.inl hacc
      · simp only [hfits, if_false] at hacc
        by_cases hlt : ltSentinel u.OnDemandPricePerHour acc.2
        · simp only [hlt, if_true] at hacc
          have hut : u = t := by simpa using hacc
          subst hut
          push_neg at hfits
          exact Or.inr ⟨List.mem_cons_self u rest, hfits.1, hfits.2⟩
        · simp only [hlt, if_false] at hacc
          exact Or.inl hacc
    · exact Or.inr ⟨List.mem_cons_of_mem u hmem, hc, hm⟩

theorem selectBestTemplate_spec (templates : List NodeTemplate) (w : WorkloadProfile)
    (dsOverhead sysReserved : ResourceQuantity) (t : NodeTemplate)
    (h : selectBestTemplate templates w dsOverhead sysReserved = some t) :
    t ∈ templates ∧
      w.EffectiveCPUMillis ≤ t.AllocatableCPUMillis - dsOverhead.CPUMillis - sysReserved.CPUMillis ∧
      w.EffectiveMemoryBytes ≤ t.AllocatableMemoryBytes - dsOverhead.MemoryBytes - sysReserved.MemoryBytes := by
  rcases selectBestTemplate_aux w dsOverhead sysReserved templates (none, none) t h with hacc | hr
  · simp at hacc
  · exact hr

/-- The invariant every open node maintains through the placement loop: the
remaining counters account exactly for the allocatable capacity minus the
DaemonSet overhead, the system reserved and the placed demand; nothing has
gone negative; the template was drawn from the input list; and the pod count
respects the cap except for the unconditional first pod a node is opened
with. -/
def NodeInv (templates : List NodeTemplate) (ds sys : ResourceQuantity) (n : nodeState) : Prop :=
  n.remainingCPU =
      n.template.AllocatableCPUMillis - ds.CPUMillis - sys.CPUMillis - sumEffCPU n.workloads ∧
  n.remainingMem =
      n.template.AllocatableMemoryBytes - ds.MemoryBytes - sys.MemoryBytes - sumEffMem n.workloads ∧
  0 ≤ n.remainingCPU ∧ 0 ≤ n.remainingMem ∧
  n.template ∈ templates ∧
  n.podCount ≤ max 1 n.template.MaxPods

theorem NodeInv_place (templates : List NodeTemplate) (ds sys : ResourceQuantity)
    (n : nodeState) (w : WorkloadProfile) (h : NodeInv templates ds sys n)
    (hfit : canFit n w = true) : NodeInv templates ds sys (place n w) := by
  obtain ⟨hc, hm, hc0, hm0, ht, hp⟩ := h
  have hfits := hfit
  simp only [canFit, Bool.and_eq_true, decide_eq_true_eq] at hfits
  obtain ⟨⟨hwc, hwm⟩, hwp⟩ := hfits
  refine ⟨?_, ?_, ?_, ?_, ht, ?_⟩
  · simp only [place, sumEffCPU_append, sumEffCPU_singleton]
    omega
  · simp only [place, sumEffMem_append, sumEffMem_singleton]
    omega
  · simp only [place]; omega
  · simp only [place]; omega
  · simp only [place]; omega

theorem NodeInv_open (templates : List NodeTemplate) (ds sys : ResourceQuantity)
    (t : NodeTemplate) (w : WorkloadProfile) (ht : t ∈ templates)
    (hc : w.EffectiveCPUMillis ≤ t.AllocatableCPUMillis - ds.CPUMillis - sys.CPUMillis)
    (hm : w.EffectiveMemoryBytes ≤ t.AllocatableMemoryBytes - ds.MemoryBytes - sys.MemoryBytes) :
    NodeInv templates ds sys (place (openNode t ds sys) w) := by
  refine ⟨?_, ?_, ?_, ?_, ht, ?_⟩
  · simp only [place, openNode, sumEffCPU, List.nil_append, List.map_cons, List.map_nil,
      List.sum_cons, List.sum_nil]
    omega
  · simp only [place, openNode, sumEffMem, List.nil_append, List.map_cons, List.map_nil,
      List.sum_cons, List.sum_nil]
    omega
  · simp only [place, openNode]; omega
  · simp only [place, openNode]; omega
  · simp only [place, openNode]
    exact le_max_left 1 t.MaxPods

theorem packLoop_nodeInv (cancelled : ℕ → Bool) (input : PackInput)
    (ds : ResourceQuantity) (ws : List WorkloadProfile) :
    ∀ (i : ℕ) (nodes : List nodeState) (us : List WorkloadProfile)
      (ns : List nodeState) (us2 : List WorkloadProfile),
      (∀ n ∈ nodes, NodeInv input.NodeTemplates ds input.SystemReserved n) →
      packLoop cancelled input ds i ws nodes us = Except.ok (ns, us2) →
      ∀ n ∈ ns, NodeInv input.NodeTemplates ds input.SystemReserved n := by
  induction ws with
  | nil =>
    intro i nodes us ns us2 hinv h
    simp only [packLoop, Except.ok.injEq, Prod.mk.injEq] at h
    rw [← h.1]
    exact hinv
  | cons w rest ih =>
    intro i nodes us ns us2 hinv h
    simp only [packLoop] at h
    by_cases hcan : cancelled i
    · simp [hcan] at h
    · simp only [hcan, Bool.false_eq_true, if_false] at h
      cases hbest : findBestNode nodes w with
      | some j =>
        rw [hbest] at h
        refine ih (i + 1) _ us ns us2 ?_ h
        intro n hn
        rcases mem_modifyAt _ nodes j n hn with hmem | ⟨hj, heq⟩
        · exact hinv n hmem
        · obtain ⟨hjlt, hfit⟩ := findBestNode_spec nodes w j hbest
          rw [heq]
          have hmem2 : nodes.getD j default ∈ nodes := by
            rw [List.getD_eq_getElem nodes default hjlt]
            exact List.getElem_mem hjlt
          exact NodeInv_place _ _ _ _ w (hinv _ hmem2) hfit
      | none =>
        rw [hbest] at h
        by_cases hmax : 0 < input.MaxNodes ∧ input.MaxNodes ≤ (nodes.length : ℤ)
        · rw [if_pos hmax] at h
          exact ih (i + 1) nodes (us ++ [w]) ns us2 hinv h
        · rw [if_neg hmax] at h
          cases hsel : selectBestTemplate input.NodeTemplates w ds input.SystemReserved with
          | none =>
            rw [hsel] at h
            exact ih (i + 1) nodes (us ++ [w]) ns us2 hinv h
          | some t =>
            rw [hsel] at h
            refine ih (i + 1) _ us ns us2 ?_ h
            intro n hn
            rcases List.mem_append.mp hn with hmem | hnew
            · exact hinv n hmem
            · obtain ⟨ht, hc, hm⟩ := selectBestTemplate_spec _ w _ _ t hsel
              have : n = place (openNode t ds input.SystemReserved) w := by simpa using hnew
              rw [this]
              exact NodeInv_open _ _ _ t w ht hc hm

theorem packLoop_perm (cancelled : ℕ → Bool) (input : PackInput)
    (ds : ResourceQuantity) (ws : List WorkloadProfile) :
    ∀ (i : ℕ) (nodes : List nodeState) (us : List WorkloadProfile)
      (ns : List nodeState) (us2 : List WorkloadProfile),
      packLoop cancelled input ds i ws nodes us = Except.ok (ns, us2) →
      List.Perm (allPlaced ns ++ us2) ((allPlaced nodes ++ us) ++ ws) := by
  induction ws with
  | nil =>
    intro i nodes us ns us2 h
    simp only [packLoop, Except.ok.injEq, Prod.mk.injEq] at h
    rw [← h.1, ← h.2, List.append_nil]
  | cons w rest ih =>
    intro i nodes us ns us2 h
    simp only [packLoop] at h
    by_cases hcan : cancelled i
    · simp [hcan] at h
    · simp only [hcan, Bool.false_eq_true, if_false] at h
      cases hbest : findBestNode nodes w with
      | some j =>
        rw [hbest] at h
        have hstep := ih (i + 1) _ us ns us2 h
        have hjlt := (findBestNode_spec nodes w j hbest).1
        refine hstep.trans ?_
        have hmv := allPlaced_modifyAt_place nodes j w hjlt
        refine List.Perm.trans
          (List.Perm.append_right rest (List.Perm.append_right us hmv)) ?_
        exact List.perm_middle.symm
      | none =>
        rw [hbest] at h
        by_cases hmax : 0 < input.MaxNodes ∧ input.MaxNodes ≤ (nodes.length : ℤ)
        · rw [if_pos hmax] at h
          have hstep := ih (i + 1) nodes (us ++ [w]) ns us2 h
          refine hstep.trans ?_
          simp
        · rw [if_neg hmax] at h
          cases hsel : selectBestTemplate input.NodeTemplates w ds input.SystemReserved with
          | none =>
            rw [hsel] at h
            have hstep := ih (i + 1) nodes (us ++ [w]) ns us2 h
            refine hstep.trans ?_
            simp
          | some t =>
            rw [hsel] at h
            have hstep := ih (i + 1) _ us ns us2 h
            refine hstep.trans ?_
            have : allPlaced (nodes ++ [place (openNode t ds input.SystemReserved) w]) =
                allPlaced nodes ++ [w] := by
              simp [allPlaced, place, openNode]
            rw [this]
            simp only [List.append_assoc, List.singleton_append, List.cons_append]
            exact List.Perm.append_left _
              ((List.perm_middle :
                List.Perm (us ++ w :: rest) (w :: (us ++ rest))).symm)

/-! ### Pack level lemmas -/

theorem sortByDominance_perm (ws : List WorkloadProfile) (ts : List NodeTemplate) :
    List.Perm (sortByDominance ws ts) ws := by
  unfold sortByDominance
  by_cases h : (largestNodeCapacity ts).1 = 0 ∨ (largestNodeCapacity ts).2 = 0
  · simp [h]
  · simp only [h, if_false]
    exact sortStable_perm _ ws

theorem Pack_ok_elim (c : ℕ → Bool) (input : PackInput) (res : PackResult)
    (hne : input.NodeTemplates ≠ []) (h : Pack c input = Except.ok res) :
    ∃ ns us, runPlacement c input = Except.ok (ns, us) ∧
      res.Nodes = ((if 0 < input.SpotRatio then applySpotRatio ns input.SpotRatio
        else ns).map buildAllocation) ∧
      res.UnschedulablePods = us := by
  unfold Pack at h
  rw [if_neg hne] at h
  cases hrp : runPlacement c input with
  | error e => rw [hrp] at h; cases h
  | ok p =>
    obtain ⟨ns, us⟩ := p
    rw [hrp] at h
    refine ⟨ns, us, rfl, ?_, ?_⟩
    · have := congrArg PackResult.Nodes (Except.ok.inj h)
      exact this.symm
    · have := congrArg PackResult.UnschedulablePods (Except.ok.inj h)
      exact this.symm

theorem runPlacement_perm (c : ℕ → Bool) (input : PackInput)
    (ns : List nodeState) (us : List WorkloadProfile)
    (h : runPlacement c input = Except.ok (ns, us)) :
    List.Perm (allPlaced ns ++ us) input.Workloads := by
  unfold runPlacement at h
  have hp := packLoop_perm c input (daemonSetOverhead input.DaemonSets)
    (sortByDominance input.Workloads input.NodeTemplates) 0 [] [] ns us h
  refine hp.trans ?_
  exact sortByDominance_perm input.Workloads input.NodeTemplates

theorem runPlacement_nodeInv (c : ℕ → Bool) (input : PackInput)
    (ns : List nodeState) (us : List WorkloadProfile)
    (h : runPlacement c input = Except.ok (ns, us)) :
    ∀ n ∈ ns, NodeInv input.NodeTemplates (daemonSetOverhead input.DaemonSets)
      input.SystemReserved n := by
  unfold runPlacement at h
  exact packLoop_nodeInv c input (daemonSetOverhead input.DaemonSets)
    (sortByDominance input.Workloads input.NodeTemplates) 0 [] [] ns us (by simp) h

theorem mem_spotStage (ns : List nodeState) (q : ℚ) (n' : nodeState)
    (h : n' ∈ (if 0 < q then applySpotRatio ns q else ns)) :
    ∃ n ∈ ns, ∃ cap, n' = setCapacity n cap := by
  by_cases hq : 0 < q
  · rw [if_pos hq] at h
    obtain ⟨i, hi, hget⟩ := List.getElem_of_mem h
    have hilt : i < ns.length := by rwa [applySpotRatio_length] at hi
    obtain ⟨cap, hc⟩ := applySpotRatio_getElem?_spec ns q i hilt
    rw [List.getElem?_eq_getElem hi, List.getElem?_eq_getElem hilt] at hc
    refine ⟨ns[i], List.getElem_mem hilt, cap, ?_⟩
    rw [← hget]
    exact Option.some.inj hc
  · rw [if_neg hq] at h
    exact ⟨n', h, n'.template.CapacityType, (setCapacity_self n').symm⟩

/-! ### Claim C10: empty template list -/

/-- Claim C10: with an empty template list Pack returns successfully, with no
nodes and the whole input workload list, in order, as the unschedulable set
(whatever the cancellation state). -/
theorem pack_empty_templates_returns_all_unschedulable (c : ℕ → Bool) (input : PackInput)
    (h : input.NodeTemplates = []) :
    Pack c input = Except.ok { Nodes := [], UnschedulablePods := input.Workloads } := by
  unfold Pack
  rw [if_pos h]

/-- Witness for the C10 theorem at a concrete input. -/
theorem pack_empty_templates_returns_all_unschedulable_witness :
    Pack (fun _ => false)
        { Workloads := [], DaemonSets := [], NodeTemplates := [],
          SystemReserved := { CPUMillis := 0, MemoryBytes := 0 },
          MaxNodes := 0, MinNodes := 0, SpotRatio := 0 } =
      Except.ok { Nodes := [], UnschedulablePods := [] } :=
  pack_empty_templates_returns_all_unschedulable (fun _ => false) _ rfl

/-! ### Claim C4: workload partition -/

/-- Claim C4: every input workload appears exactly once in the union of the
placed workloads and the unschedulable list of a successful pack run (stated
as a multiset equality: the concatenation is a permutation of the input). -/
theorem pack_workloads_partition (c : ℕ → Bool) (input : PackInput) (res : PackResult)
    (h : Pack c input = Except.ok res) :
    List.Perm ((res.Nodes.map NodeAllocation.Workloads).flatten ++ res.UnschedulablePods)
      input.Workloads := by
  by_cases hne : input.NodeTemplates = []
  · rw [pack_empty_templates_returns_all_unschedulable c input hne] at h
    rw [← Except.ok.inj h]
    simp
  · obtain ⟨ns, us, hrp, hnodes, hus⟩ := Pack_ok_elim c input res hne h
    have hmap : (res.Nodes.map NodeAllocation.Workloads).flatten = allPlaced ns := by
      rw [hnodes, List.map_map]
      have h1 : (NodeAllocation.Workloads ∘ buildAllocation) = nodeState.workloads := rfl
      rw [h1]
      unfold allPlaced
      by_cases hq : 0 < input.SpotRatio
      · rw [if_pos hq, applySpotRatio_map_workloads]
      · rw [if_neg hq]
    rw [hmap, hus]
    exact runPlacement_perm c input ns us hrp

/-! ### Claim C2 (amended): per-node accounting -/

/-- Claim C2, amended: on every node of a successful pack run the sum of the
placed workloads' effective demands equals (used_cpu, used_mem) minus the
per-node DaemonSet overhead and system reserved (rather than (used_cpu,
used_mem) itself as the original claim read), and used_cpu ≤ allocatable_cpu,
used_mem ≤ allocatable_memory. -/
theorem pack_node_accounting (c : ℕ → Bool) (input : PackInput) (res : PackResult)
    (h : Pack c input = Except.ok res) :
    ∀ a ∈ res.Nodes,
      sumEffCPU a.Workloads = a.UsedCPU - (daemonSetOverhead input.DaemonSets).CPUMillis -
        input.SystemReserved.CPUMillis ∧
      sumEffMem a.Workloads = a.UsedMem - (daemonSetOverhead input.DaemonSets).MemoryBytes -
        input.SystemReserved.MemoryBytes ∧
      a.UsedCPU ≤ a.Template.AllocatableCPUMillis ∧
      a.UsedMem ≤ a.Template.AllocatableMemoryBytes := by
  intro a ha
  by_cases hne : input.NodeTemplates = []
  · rw [pack_empty_templates_returns_all_unschedulable c input hne] at h
    rw [← Except.ok.inj h] at ha
    simp at ha
  · obtain ⟨ns, us, hrp, hnodes, _⟩ := Pack_ok_elim c input res hne h
    rw [hnodes] at ha
    obtain ⟨n', hn', hbuild⟩ := List.mem_map.mp ha
    obtain ⟨n, hn, cap, hcap⟩ := mem_spotStage ns input.SpotRatio n' hn'
    obtain ⟨hic, him, hc0, hm0, _, _⟩ := runPlacement_nodeInv c input ns us hrp n hn
    subst hcap
    rw [← hbuild]
    simp only [buildAllocation, setCapacity, NodeTemplate.AllocatableResources]
    refine ⟨by rw [hic]; ring, by rw [him]; ring, by omega, by omega⟩

/-! ### Claim C3 (amended and counterexample): pod cap -/

/-- Claim C3, amended: when every input template allows at least one pod
(max_pods ≥ 1), every node of a successful pack run respects its template's
pod cap.  The original claim, which also covered templates with max_pods = 0,
fails because opening a fresh node never consults max_pods (see the
counterexample). -/
theorem pack_podCount_within_cap (c : ℕ → Bool) (input : PackInput) (res : PackResult)
    (hmp : ∀ t ∈ input.NodeTemplates, 1 ≤ t.MaxPods)
    (h : Pack c input = Except.ok res) :
    ∀ a ∈ res.Nodes, a.PodCount ≤ a.Template.MaxPods := by
  intro a ha
  by_cases hne : input.NodeTemplates = []
  · rw [pack_empty_templates_returns_all_unschedulable c input hne] at h
    rw [← Except.ok.inj h] at ha
    simp at ha
  · obtain ⟨ns, us, hrp, hnodes, _⟩ := Pack_ok_elim c input res hne h
    rw [hnodes] at ha
    obtain ⟨n', hn', hbuild⟩ := List.mem_map.mp ha
    obtain ⟨n, hn, cap, hcap⟩ := mem_spotStage ns input.SpotRatio n' hn'
    obtain ⟨_, _, _, _, htm, hpod⟩ := runPlacement_nodeInv c input ns us hrp n hn
    subst hcap
    rw [← hbuild]
    simp only [buildAllocation, setCapacity]
    have h1 : 1 ≤ n.template.MaxPods := hmp n.template htm
    omega

/-! ### Concrete fixtures for witnesses and counterexamples -/

/-- A cancellation oracle that never fires. -/
def neverCancelled : ℕ → Bool := fun _ => false

/-- A small m5.large-like template (memory in plain units to keep the
arithmetic small). -/
def exTemplate : NodeTemplate :=
  { InstanceType := "m5.large", InstanceFamily := "m5",
    AllocatableCPUMillis := 2000, AllocatableMemoryBytes := 8192, MaxPods := 29,
    OnDemandPricePerHour := 96/1000, SpotPricePerHour := 0,
    CapacityType := CapacityType.onDemand }

/-- A workload with the given effective demand. -/
def exW (c m : ℤ) : WorkloadProfile :=
  { Namespace := "ns", Name := "app",
    Requested := { CPUMillis := c, MemoryBytes := m },
    Limits := { CPUMillis := 0, MemoryBytes := 0 },
    CPUUsage := { P50 := 0, P95 := 0, P99 := 0, Max := 0 },
    MemoryUsage := { P50 := 0, P95 := 0, P99 := 0, Max := 0 },
    EffectiveCPUMillis := c, EffectiveMemoryBytes := m,
    IsDaemonSet := false, NoMetrics := false }

/-- One workload, one template, nothing else: the S1 scenario of the spec. -/
def exInputS1 : PackInput :=
  { Workloads := [exW 1000 2048], DaemonSets := [], NodeTemplates := [exTemplate],
    SystemReserved := { CPUMillis := 0, MemoryBytes := 0 },
    MaxNodes := 0, MinNodes := 0, SpotRatio := 0 }

/-- The node Pack opens for exInputS1. -/
def exNodeS1 : NodeAllocation :=
  { Template := exTemplate, Workloads := [exW 1000 2048],
    UsedCPU := 1000, UsedMem := 2048, PodCount := 1,
    CPUUtilization := 1/2, MemUtilization := 1/4 }

/-- The full result of Pack on exInputS1. -/
def exResultS1 : PackResult := { Nodes := [exNodeS1], UnschedulablePods := [] }

/-- A pack input carrying one DaemonSet, whose overhead is charged to the
node. -/
def exInputDaemon : PackInput :=
  { Workloads := [exW 100 100], DaemonSets := [exW 50 0], NodeTemplates := [exTemplate],
    SystemReserved := { CPUMillis := 0, MemoryBytes := 0 },
    MaxNodes := 0, MinNodes := 0, SpotRatio := 0 }

/-- The node Pack opens for exInputDaemon: its used CPU of 150 includes the 50
millicores of DaemonSet overhead on top of the placed demand of 100. -/
def exNodeDaemon : NodeAllocation :=
  { Template := exTemplate, Workloads := [exW 100 100],
    UsedCPU := 150, UsedMem := 100, PodCount := 1,
    CPUUtilization := 3/40, MemUtilization := 25/2048 }

/-- The full result of Pack on exInputDaemon. -/
def exResultDaemon : PackResult := { Nodes := [exNodeDaemon], UnschedulablePods := [] }

/-- A template whose max_pods is zero. -/
def exTemplateNoPods : NodeTemplate := { exTemplate with MaxPods := 0 }

/-- A pack input whose only template has max_pods = 0. -/
def exInputPodCap : PackInput :=
  { Workloads := [exW 100 100], DaemonSets := [], NodeTemplates := [exTemplateNoPods],
    SystemReserved := { CPUMillis := 0, MemoryBytes := 0 },
    MaxNodes := 0, MinNodes := 0, SpotRatio := 0 }

/-- The node Pack opens for exInputPodCap: one pod despite max_pods = 0. -/
def exNodePodCap : NodeAllocation :=
  { Template := exTemplateNoPods, Workloads := [exW 100 100],
    UsedCPU := 100, UsedMem := 100, PodCount := 1,
    CPUUtilization := 1/20, MemUtilization := 25/2048 }

/-- The full result of Pack on exInputPodCap. -/
def exResultPodCap : PackResult := { Nodes := [exNodePodCap], UnschedulablePods := [] }

/-- Witness for the C4 theorem: the partition property evaluated on the S1
scenario. -/
theorem pack_workloads_partition_witness :
    List.Perm ((exResultS1.Nodes.map NodeAllocation.Workloads).flatten ++
      exResultS1.UnschedulablePods) exInputS1.Workloads :=
  pack_workloads_partition neverCancelled exInputS1 exResultS1 (by with_unfolding_all rfl)

/-- Counterexample to claim C2 as stated: on a run with one DaemonSet the sum
of the placed workloads' effective demands (100 millicores) differs from the
node's used_cpu (150 millicores, which includes the DaemonSet overhead). -/
theorem pack_sum_equals_used_counterexample :
    ¬ (∀ (res : PackResult), Pack neverCancelled exInputDaemon = Except.ok res →
        ∀ a ∈ res.Nodes,
          sumEffCPU a.Workloads = a.UsedCPU ∧ sumEffMem a.Workloads = a.UsedMem) := by
  intro hclaim
  exact absurd ((hclaim exResultDaemon (by with_unfolding_all rfl) exNodeDaemon (List.mem_cons_self _ _)).1) (by decide)

/-- Witness for the amended C2 theorem on the S1 scenario. -/
theorem pack_node_accounting_witness :
    sumEffCPU exNodeS1.Workloads = exNodeS1.UsedCPU -
        (daemonSetOverhead exInputS1.DaemonSets).CPUMillis -
        exInputS1.SystemReserved.CPUMillis ∧
      sumEffMem exNodeS1.Workloads = exNodeS1.UsedMem -
        (daemonSetOverhead exInputS1.DaemonSets).MemoryBytes -
        exInputS1.SystemReserved.MemoryBytes ∧
      exNodeS1.UsedCPU ≤ exNodeS1.Template.AllocatableCPUMillis ∧
      exNodeS1.UsedMem ≤ exNodeS1.Template.AllocatableMemoryBytes :=
  pack_node_accounting neverCancelled exInputS1 exResultS1 (by with_unfolding_all rfl) exNodeS1 (List.mem_cons_self _ _)

/-- Counterexample to claim C3 as stated: against a template with max_pods =
0 the packer still opens a node and places one pod on it, so pod_count = 1 >
0 = max_pods. -/
theorem pack_pod_cap_counterexample :
    ¬ (∀ (res : PackResult), Pack neverCancelled exInputPodCap = Except.ok res →
        ∀ a ∈ res.Nodes, a.PodCount ≤ a.Template.MaxPods) := by
  intro hclaim
  exact absurd (hclaim exResultPodCap (by with_unfolding_all rfl) exNodePodCap (List.mem_cons_self _ _)) (by decide)

/-- Witness for the amended C3 theorem on the S1 scenario. -/
theorem pack_podCount_within_cap_witness :
    exNodeS1.PodCount ≤ exNodeS1.Template.MaxPods :=
  pack_podCount_within_cap neverCancelled exInputS1 exResultS1
    (by decide) (by with_unfolding_all rfl) exNodeS1 (List.mem_cons_self _ _)

/-! ### Claim C1: HA padding to MinNodes (spec-modelled) -/

theorem cheapestTemplate_isSome (ts : List NodeTemplate) (h : ts ≠ []) :
    ∃ t, cheapestTemplate ts = some t := by
  cases ts with
  | nil => exact absurd rfl h
  | cons u rest =>
    unfold cheapestTemplate
    rw [List.foldl_cons]
    have hstart : (ltSentinel u.OnDemandPricePerHour
        ((none : Option NodeTemplate), (none : Option ℚ)).2) = true := rfl
    rw [if_pos hstart]
    have haux : ∀ (l : List NodeTemplate) (acc : Option NodeTemplate × Option ℚ),
        acc.1.isSome = true →
        ((l.foldl (fun best t =>
          if ltSentinel t.OnDemandPricePerHour best.2 then (some t, some t.OnDemandPricePerHour)
          else best) acc).1).isSome = true := by
      intro l
      induction l with
      | nil => intro acc hacc; exact hacc
      | cons v vs ih =>
        intro acc hacc
        rw [List.foldl_cons]
        by_cases hv : ltSentinel v.OnDemandPricePerHour acc.2
        · rw [if_pos hv]
          exact ih _ rfl
        · rw [if_neg hv]
          exact ih _ hacc
    have := haux rest (some u, some u.OnDemandPricePerHour) rfl
    cases hres : (rest.foldl (fun best t =>
        if ltSentinel t.OnDemandPricePerHour best.2 then (some t, some t.OnDemandPricePerHour)
        else best) (some u, some u.OnDemandPricePerHour)).1 with
    | none => rw [hres] at this; cases this
    | some t => exact ⟨t, rfl⟩

theorem spotStage_length (ns : List nodeState) (q : ℚ) :
    (if 0 < q then applySpotRatio ns q else ns).length = ns.length := by
  by_cases hq : 0 < q
  · rw [if_pos hq, applySpotRatio_length]
  · rw [if_neg hq]

theorem spotStage_getElem?_spec (ns : List nodeState) (q : ℚ) (j : ℕ) (hj : j < ns.length) :
    ∃ c, (if 0 < q then applySpotRatio ns q else ns)[j]? = (ns[j]?).map (setCapacity · c) := by
  by_cases hq : 0 < q
  · rw [if_pos hq]
    exact applySpotRatio_getElem?_spec ns q j hj
  · rw [if_neg hq]
    refine ⟨(ns.getD j default).template.CapacityType, ?_⟩
    simp [List.getElem?_eq_getElem hj, List.getD_eq_getElem ns default hj, setCapacity_self]

/-- Claim C1 (padding modelled from the spec): on any pack input with a
non-empty template list and MinNodes > 0, the padded pack returns at least
MinNodes nodes, and every node appended beyond the placement pass output
carries no workloads, zero used resources, no pods, and zero utilisation. -/
theorem pack_min_nodes_padding (c : ℕ → Bool) (input : PackInput)
    (ns : List nodeState) (us : List WorkloadProfile) (res : PackResult)
    (hne : input.NodeTemplates ≠ []) (hmn : 0 < input.MinNodes)
    (hrp : runPlacement c input = Except.ok (ns, us))
    (h : PackWithMinNodes c input = Except.ok res) :
    input.MinNodes ≤ (res.Nodes.length : ℤ) ∧
    ∀ a ∈ res.Nodes.drop ns.length,
      a.Workloads = [] ∧ a.UsedCPU = 0 ∧ a.UsedMem = 0 ∧ a.PodCount = 0 ∧
      a.CPUUtilization = 0 ∧ a.MemUtilization = 0 := by
  unfold PackWithMinNodes at h
  rw [if_neg hne, hrp] at h
  obtain ⟨t, ht⟩ := cheapestTemplate_isSome input.NodeTemplates hne
  have hpad : padToMinNodes ns input.NodeTemplates input.MinNodes =
      ns ++ List.replicate (input.MinNodes - (ns.length : ℤ)).toNat (emptyPaddingNode t) := by
    unfold padToMinNodes
    rw [ht]
  have hres : res.Nodes =
      ((if 0 < input.SpotRatio
        then applySpotRatio (padToMinNodes ns input.NodeTemplates input.MinNodes) input.SpotRatio
        else padToMinNodes ns input.NodeTemplates input.MinNodes).map buildAllocation) := by
    have := congrArg PackResult.Nodes (Except.ok.inj h)
    exact this.symm
  have hlenpad : (padToMinNodes ns input.NodeTemplates input.MinNodes).length =
      ns.length + (input.MinNodes - (ns.length : ℤ)).toNat := by
    rw [hpad, List.length_append, List.length_replicate]
  have hlen : res.Nodes.length = ns.length + (input.MinNodes - (ns.length : ℤ)).toNat := by
    rw [hres, List.length_map, spotStage_length, hlenpad]
  constructor
  · rw [hlen]
    have := Int.self_le_toNat (input.MinNodes - (ns.length : ℤ))
    push_cast
    omega
  · intro a ha
    rw [hres, ← List.map_drop] at ha
    obtain ⟨n', hn', hbuild⟩ := List.mem_map.mp ha
    obtain ⟨i, hi, hget⟩ := List.getElem_of_mem hn'
    have hgets : (if 0 < input.SpotRatio
        then applySpotRatio (padToMinNodes ns input.NodeTemplates input.MinNodes) input.SpotRatio
        else padToMinNodes ns input.NodeTemplates input.MinNodes)[ns.length + i]? = some n' := by
      rw [← List.getElem?_drop, List.getElem?_eq_getElem hi, hget]
    have hjlt : ns.length + i < (padToMinNodes ns input.NodeTemplates input.MinNodes).length := by
      have hdl := hi
      rw [List.length_drop, spotStage_length] at hdl
      omega
    obtain ⟨cap, hcap⟩ := spotStage_getElem?_spec
      (padToMinNodes ns input.NodeTemplates input.MinNodes) input.SpotRatio (ns.length + i) hjlt
    rw [hgets] at hcap
    have hpadget : (padToMinNodes ns input.NodeTemplates input.MinNodes)[ns.length + i]? =
        some (emptyPaddingNode t) := by
      rw [hpad, List.getElem?_append_right (by omega), List.getElem?_replicate]
      rw [hpad, List.length_append, List.length_replicate] at hjlt
      rw [if_pos (by omega)]
    rw [hpadget] at hcap
    have hn'eq : setCapacity (emptyPaddingNode t) cap = n' := by
      simpa using hcap.symm
    rw [← hbuild, ← hn'eq]
    simp [buildAllocation, setCapacity, emptyPaddingNode, NodeTemplate.AllocatableResources]

/-- A pack input exercising the HA padding: one small workload, MinNodes =
3. -/
def exInputMin : PackInput :=
  { Workloads := [exW 500 1024], DaemonSets := [], NodeTemplates := [exTemplate],
    SystemReserved := { CPUMillis := 0, MemoryBytes := 0 },
    MaxNodes := 0, MinNodes := 3, SpotRatio := 0 }

/-- The single node the placement pass opens for exInputMin. -/
def exPlacedMin : List nodeState :=
  [{ template := exTemplate, workloads := [exW 500 1024],
     remainingCPU := 1500, remainingMem := 7168, podCount := 1 }]

/-- The padded pack result for exInputMin: the placed node plus two empty
padding nodes. -/
def exResultMin : PackResult :=
  { Nodes :=
      [{ Template := exTemplate, Workloads := [exW 500 1024],
         UsedCPU := 500, UsedMem := 1024, PodCount := 1,
         CPUUtilization := 1/4, MemUtilization := 1/8 },
       { Template := exTemplate, Workloads := [], UsedCPU := 0, UsedMem := 0, PodCount := 0,
         CPUUtilization := 0, MemUtilization := 0 },
       { Template := exTemplate, Workloads := [], UsedCPU := 0, UsedMem := 0, PodCount := 0,
         CPUUtilization := 0, MemUtilization := 0 }],
    UnschedulablePods := [] }

/-- Witness for the C1 theorem on the S6 scenario of the spec. -/
theorem pack_min_nodes_padding_witness :
    exInputMin.MinNodes ≤ (exResultMin.Nodes.length : ℤ) ∧
    ∀ a ∈ exResultMin.Nodes.drop exPlacedMin.length,
      a.Workloads = [] ∧ a.UsedCPU = 0 ∧ a.UsedMem = 0 ∧ a.PodCount = 0 ∧
      a.CPUUtilization = 0 ∧ a.MemUtilization = 0 :=
  pack_min_nodes_padding neverCancelled exInputMin exPlacedMin [] exResultMin
    (by decide) (by decide) (by with_unfolding_all rfl) (by with_unfolding_all rfl)

/-! ### Claim C5: spot assignment -/

instance : Inhabited NodeAllocation :=
  ⟨{ Template := (default : nodeState).template, Workloads := [],
     UsedCPU := 0, UsedMem := 0, PodCount := 0, CPUUtilization := 0, MemUtilization := 0 }⟩

theorem applySpotMark_eq (nodes : List nodeState) (sc : ℤ) :
    applySpotMark nodes sc = (List.range nodes.length).map
      (fun j => setCapacity (nodes.getD j default)
        (if ((spotPos nodes j : ℕ) : ℤ) < sc then CapacityType.spot
         else CapacityType.onDemand)) := by
  apply List.ext_getElem?
  intro i
  by_cases hi : i < nodes.length
  · rw [applySpotMark_getElem? nodes sc i hi, List.getElem?_map, List.getElem?_range hi,
      List.getElem?_eq_getElem hi, Option.map_some', Option.map_some',
      List.getD_eq_getElem nodes default hi]
  · rw [List.getElem?_eq_none (by rw [applySpotMark_length]; omega),
      List.getElem?_eq_none (by simpa using le_of_not_lt hi)]

theorem map_spotPos_range_perm (nodes : List nodeState) :
    List.Perm ((List.range nodes.length).map (spotPos nodes)) (List.range nodes.length) := by
  have h1 : List.Perm ((List.range nodes.length).map (spotPos nodes))
      ((spotSortedIndices nodes).map (spotPos nodes)) :=
    List.Perm.map _ (spotSortedIndices_perm nodes).symm
  have h2 : (spotSortedIndices nodes).map (spotPos nodes) = List.range nodes.length := by
    unfold spotPos
    rw [nodup_map_indexOf _ (spotSortedIndices_nodup nodes),
      (spotSortedIndices_perm nodes).length_eq, List.length_range]
  rw [h2] at h1
  exact h1

theorem applySpotMark_countP_spot (nodes : List nodeState) (sc : ℤ)
    (h0 : 0 ≤ sc) (hn : sc ≤ (nodes.length : ℤ)) :
    (applySpotMark nodes sc).countP
      (fun n => decide (n.template.CapacityType = CapacityType.spot)) = sc.toNat := by
  rw [applySpotMark_eq, List.countP_map]
  have hcongr : ((List.range nodes.length).countP
      ((fun n => decide (n.template.CapacityType = CapacityType.spot)) ∘
        (fun j => setCapacity (nodes.getD j default)
          (if ((spotPos nodes j : ℕ) : ℤ) < sc then CapacityType.spot
           else CapacityType.onDemand)))) =
      (List.range nodes.length).countP (fun j => decide (spotPos nodes j < sc.toNat)) := by
    apply List.countP_congr
    intro j _
    simp only [Function.comp_apply, setCapacity, decide_eq_true_eq]
    by_cases hcd : ((spotPos nodes j : ℕ) : ℤ) < sc
    · rw [if_pos hcd]
      constructor
      · intro _; omega
      · intro _; rfl
    · rw [if_neg hcd]
      constructor
      · intro hcon; cases hcon
      · intro hcon; omega
  rw [hcongr]
  have hmap : (List.range nodes.length).countP (fun j => decide (spotPos nodes j < sc.toNat)) =
      ((List.range nodes.length).map (spotPos nodes)).countP
        (fun t => decide (t < sc.toNat)) := by
    rw [List.countP_map]
    rfl
  rw [hmap, (map_spotPos_range_perm nodes).countP_eq, range_countP_lt]
  omega

theorem applySpotMark_countP_onDemand (nodes : List nodeState) (sc : ℤ)
    (h0 : 0 ≤ sc) (hn : sc ≤ (nodes.length : ℤ)) :
    (applySpotMark nodes sc).countP
      (fun n => decide (n.template.CapacityType = CapacityType.onDemand)) =
      nodes.length - sc.toNat := by
  have hlen := applySpotMark_length nodes sc
  have hsum := List.length_eq_countP_add_countP
    (p := fun n => decide (n.template.CapacityType = CapacityType.spot))
    (applySpotMark nodes sc)
  have hcompl : (applySpotMark nodes sc).countP
      (fun n => ¬ (decide (n.template.CapacityType = CapacityType.spot)) = true) =
      (applySpotMark nodes sc).countP
        (fun n => decide (n.template.CapacityType = CapacityType.onDemand)) := by
    apply List.countP_congr
    intro x _
    simp only [decide_eq_true_eq]
    cases hx : x.template.CapacityType <;> simp
  rw [applySpotMark_countP_spot nodes sc h0 hn] at hsum
  rw [← hcompl]
  omega

theorem applySpotMark_spot_before_onDemand (nodes : List nodeState) (sc : ℤ)
    (i j : ℕ) (hi : i < nodes.length) (hj : j < nodes.length)
    (hsi : ((applySpotMark nodes sc).getD i default).template.CapacityType = CapacityType.spot)
    (hsj : ((applySpotMark nodes sc).getD j default).template.CapacityType =
      CapacityType.onDemand) :
    spotKey nodes i < spotKey nodes j ∨ (spotKey nodes i = spotKey nodes j ∧ i < j) := by
  have hleni : i < (applySpotMark nodes sc).length := by rwa [applySpotMark_length]
  have hlenj : j < (applySpotMark nodes sc).length := by rwa [applySpotMark_length]
  rw [List.getD_eq_getElem _ default hleni] at hsi
  rw [List.getD_eq_getElem _ default hlenj] at hsj
  have hgi := applySpotMark_getElem? nodes sc i hi
  have hgj := applySpotMark_getElem? nodes sc j hj
  rw [List.getElem?_eq_getElem hleni, List.getElem?_eq_getElem hi, Option.map_some'] at hgi
  rw [List.getElem?_eq_getElem hlenj, List.getElem?_eq_getElem hj, Option.map_some'] at hgj
  have hci : ((spotPos nodes i : ℕ) : ℤ) < sc := by
    by_contra hc
    rw [Option.some.inj hgi] at hsi
    simp only [setCapacity, if_neg hc] at hsi
    cases hsi
  have hcj : ¬ ((spotPos nodes j : ℕ) : ℤ) < sc := by
    intro hc
    rw [Option.some.inj hgj] at hsj
    simp only [setCapacity, if_pos hc] at hsj
    cases hsj
  have hposij : spotPos nodes i < spotPos nodes j := by omega
  have hplti := spotPos_lt nodes i hi
  have hpltj := spotPos_lt nodes j hj
  have hlex := List.pairwise_iff_getElem.mp (spotSortedIndices_lex nodes)
  have hslen : (spotSortedIndices nodes).length = nodes.length :=
    (spotSortedIndices_perm nodes).length_eq.trans (List.length_range _)
  have hposi2 : spotPos nodes i < (spotSortedIndices nodes).length := by omega
  have hposj2 : spotPos nodes j < (spotSortedIndices nodes).length := by omega
  have hgeti : (spotSortedIndices nodes)[spotPos nodes i] = i := by
    have := List.getElem_indexOf
      (l := spotSortedIndices nodes) (a := i)
      (List.indexOf_lt_length.mpr (mem_spotSortedIndices nodes i hi))
    exact this
  have hgetj : (spotSortedIndices nodes)[spotPos nodes j] = j := by
    have := List.getElem_indexOf
      (l := spotSortedIndices nodes) (a := j)
      (List.indexOf_lt_length.mpr (mem_spotSortedIndices nodes j hj))
    exact this
  have := hlex (spotPos nodes i) (spotPos nodes j) (by omega) (by omega) hposij
  rw [hgeti, hgetj] at this
  exact this

/-- Claim C5, amended: on every successful pack run with spot_ratio > 0 whose
spot count k = round(total_nodes × spot_ratio) is at least one, exactly
min(k, total_nodes) nodes end up spot and the remainder on-demand, and the
spot nodes precede every on-demand node in the (consumed CPU, insertion
index) lexicographic order, i.e. they are those with the least consumed CPU
under a stable ascending sort with ties keeping insertion order.  (When the
rounded count is zero the source returns early and leaves the capacity types
untouched; see the counterexample.) -/
theorem pack_spot_assignment (c : ℕ → Bool) (input : PackInput) (res : PackResult)
    (hq : 0 < input.SpotRatio)
    (h : Pack c input = Except.ok res)
    (hk : 1 ≤ goRound ((res.Nodes.length : ℚ) * input.SpotRatio)) :
    (res.Nodes.countP (fun a => decide (a.Template.CapacityType = CapacityType.spot))) =
      (min (goRound ((res.Nodes.length : ℚ) * input.SpotRatio))
        (res.Nodes.length : ℤ)).toNat ∧
    (res.Nodes.countP (fun a => decide (a.Template.CapacityType = CapacityType.onDemand))) =
      res.Nodes.length -
        (min (goRound ((res.Nodes.length : ℚ) * input.SpotRatio))
          (res.Nodes.length : ℤ)).toNat ∧
    ∀ i j, i < res.Nodes.length → j < res.Nodes.length →
      (res.Nodes.getD i default).Template.CapacityType = CapacityType.spot →
      (res.Nodes.getD j default).Template.CapacityType = CapacityType.onDemand →
      ((res.Nodes.getD i default).UsedCPU < (res.Nodes.getD j default).UsedCPU ∨
        ((res.Nodes.getD i default).UsedCPU = (res.Nodes.getD j default).UsedCPU ∧ i < j)) := by
  by_cases hne : input.NodeTemplates = []
  · rw [pack_empty_templates_returns_all_unschedulable c input hne] at h
    have hres0 : res.Nodes = [] := by rw [← Except.ok.inj h]
    rw [hres0] at hk
    have : goRound ((([] : List NodeAllocation).length : ℚ) * input.SpotRatio) = 0 := by
      norm_num [goRound]
    omega
  · obtain ⟨ns, us, hrp, hnodes, _⟩ := Pack_ok_elim c input res hne h
    rw [if_pos hq] at hnodes
    have hlen : res.Nodes.length = ns.length := by
      rw [hnodes, List.length_map, applySpotRatio_length]
    set k := goRound ((ns.length : ℚ) * input.SpotRatio) with hkdef
    have hk2 : 1 ≤ k := by rwa [hlen] at hk
    have hspotunf : applySpotRatio ns input.SpotRatio =
        applySpotMark ns (min k (ns.length : ℤ)) := by
      unfold applySpotRatio
      rw [if_neg (by omega)]
    have hmin0 : 0 ≤ min k (ns.length : ℤ) := by
      have : (0 : ℤ) ≤ (ns.length : ℤ) := by positivity
      omega
    have hminn : min k (ns.length : ℤ) ≤ (ns.length : ℤ) := min_le_right _ _
    have hcount1 : res.Nodes.countP
        (fun a => decide (a.Template.CapacityType = CapacityType.spot)) =
        (min k (ns.length : ℤ)).toNat := by
      rw [hnodes, hspotunf, List.countP_map]
      have hcomp : ((fun a => decide (a.Template.CapacityType = CapacityType.spot)) ∘
          buildAllocation) =
          (fun n => decide (n.template.CapacityType = CapacityType.spot)) := rfl
      rw [hcomp, applySpotMark_countP_spot ns _ hmin0 hminn]
    have hcount2 : res.Nodes.countP
        (fun a => decide (a.Template.CapacityType = CapacityType.onDemand)) =
        ns.length - (min k (ns.length : ℤ)).toNat := by
      rw [hnodes, hspotunf, List.countP_map]
      have hcomp : ((fun a => decide (a.Template.CapacityType = CapacityType.onDemand)) ∘
          buildAllocation) =
          (fun n => decide (n.template.CapacityType = CapacityType.onDemand)) := rfl
      rw [hcomp, applySpotMark_countP_onDemand ns _ hmin0 hminn]
    refine ⟨by rw [hcount1, hlen], by rw [hcount2, hlen], ?_⟩
    intro i j hi hj hsi hsj
    have hi2 : i < ns.length := by rwa [hlen] at hi
    have hj2 : j < ns.length := by rwa [hlen] at hj
    have hgd : ∀ m, m < ns.length →
        res.Nodes.getD m default =
          buildAllocation ((applySpotMark ns (min k (ns.length : ℤ))).getD m default) := by
      intro m hm
      have hm2 : m < (applySpotMark ns (min k (ns.length : ℤ))).length := by
        rw [applySpotMark_length]; exact hm
      have hm3 : m < (List.map buildAllocation
          (applySpotMark ns (min k (ns.length : ℤ)))).length := by
        rw [List.length_map]; exact hm2
      rw [hnodes, hspotunf, List.getD_eq_getElem _ default hm3,
        List.getElem_map, List.getD_eq_getElem _ default hm2]
    have hbuildcap : ∀ (x : nodeState),
        (buildAllocation x).Template.CapacityType = x.template.CapacityType := fun _ => rfl
    have hbuildused : ∀ (x : nodeState),
        (buildAllocation x).UsedCPU = x.template.AllocatableCPUMillis - x.remainingCPU :=
      fun _ => rfl
    rw [hgd i hi2, hbuildcap] at hsi
    rw [hgd j hj2, hbuildcap] at hsj
    have hlex := applySpotMark_spot_before_onDemand ns (min k (ns.length : ℤ)) i j hi2 hj2 hsi hsj
    have hkeyi : (res.Nodes.getD i default).UsedCPU = spotKey ns i := by
      rw [hgd i hi2, hbuildused]
      have hmark := applySpotMark_getElem? ns (min k (ns.length : ℤ)) i hi2
      have hm2 : i < (applySpotMark ns (min k (ns.length : ℤ))).length := by
        rw [applySpotMark_length]; exact hi2
      rw [List.getElem?_eq_getElem hm2, List.getElem?_eq_getElem hi2, Option.map_some'] at hmark
      rw [List.getD_eq_getElem _ default hm2, Option.some.inj hmark]
      simp [setCapacity, spotKey, consumedCPU, List.getD, List.getElem?_eq_getElem hi2]
    have hkeyj : (res.Nodes.getD j default).UsedCPU = spotKey ns j := by
      rw [hgd j hj2, hbuildused]
      have hmark := applySpotMark_getElem? ns (min k (ns.length : ℤ)) j hj2
      have hm2 : j < (applySpotMark ns (min k (ns.length : ℤ))).length := by
        rw [applySpotMark_length]; exact hj2
      rw [List.getElem?_eq_getElem hm2, List.getElem?_eq_getElem hj2, Option.map_some'] at hmark
      rw [List.getD_eq_getElem _ default hm2, Option.some.inj hmark]
      simp [setCapacity, spotKey, consumedCPU, List.getD, List.getElem?_eq_getElem hj2]
    rw [hkeyi, hkeyj]
    exact hlex

/-- A template already tagged spot in the catalogue. -/
def exTemplateSpot : NodeTemplate := { exTemplate with CapacityType := CapacityType.spot }

/-- One workload against a spot-tagged template with spot_ratio = 0.3: the
rounded spot count is 0, so applySpotRatio returns early and the node keeps
its spot capacity type. -/
def exInputSpotK0 : PackInput :=
  { Workloads := [exW 100 100], DaemonSets := [], NodeTemplates := [exTemplateSpot],
    SystemReserved := { CPUMillis := 0, MemoryBytes := 0 },
    MaxNodes := 0, MinNodes := 0, SpotRatio := 3/10 }

/-- The result of Pack on exInputSpotK0: one node, still spot. -/
def exResultSpotK0 : PackResult :=
  { Nodes :=
      [{ Template := exTemplateSpot, Workloads := [exW 100 100],
         UsedCPU := 100, UsedMem := 100, PodCount := 1,
         CPUUtilization := 1/20, MemUtilization := 25/2048 }],
    UnschedulablePods := [] }

/-- Counterexample to claim C5 as stated: with spot_ratio = 0.3 and one node,
k = round(1 × 0.3) = 0, yet the run does not end with exactly 0 spot nodes
and the remainder on-demand: the early return leaves the template's spot tag
in place, so 1 node is spot. -/
theorem pack_spot_ratio_counterexample :
    ¬ (∀ (res : PackResult), Pack neverCancelled exInputSpotK0 = Except.ok res →
        (res.Nodes.countP (fun a => decide (a.Template.CapacityType = CapacityType.spot))) =
          (min (goRound ((res.Nodes.length : ℚ) * exInputSpotK0.SpotRatio))
            (res.Nodes.length : ℤ)).toNat ∧
        (res.Nodes.countP (fun a => decide (a.Template.CapacityType = CapacityType.onDemand))) =
          res.Nodes.length -
            (min (goRound ((res.Nodes.length : ℚ) * exInputSpotK0.SpotRatio))
              (res.Nodes.length : ℤ)).toNat) := by
  intro hclaim
  have h := hclaim exResultSpotK0 (by with_unfolding_all rfl)
  exact absurd h.1 (by with_unfolding_all decide)

/-- Two node-filling workloads with spot_ratio = 0.5: k = 1, the first node
(insertion order tie-break on equal consumed CPU) becomes spot, the second
on-demand. -/
def exInputSpot : PackInput :=
  { Workloads := [exW 1500 1024, exW 1500 1024], DaemonSets := [],
    NodeTemplates := [exTemplate],
    SystemReserved := { CPUMillis := 0, MemoryBytes := 0 },
    MaxNodes := 0, MinNodes := 0, SpotRatio := 1/2 }

/-- The result of Pack on exInputSpot. -/
def exResultSpot : PackResult :=
  { Nodes :=
      [{ Template := exTemplateSpot, Workloads := [exW 1500 1024],
         UsedCPU := 1500, UsedMem := 1024, PodCount := 1,
         CPUUtilization := 3/4, MemUtilization := 1/8 },
       { Template := exTemplate, Workloads := [exW 1500 1024],
         UsedCPU := 1500, UsedMem := 1024, PodCount := 1,
         CPUUtilization := 3/4, MemUtilization := 1/8 }],
    UnschedulablePods := [] }

/-- Witness for the amended C5 theorem: two equal nodes, spot_ratio one half,
one spot node and one on-demand node. -/
theorem pack_spot_assignment_witness :
    (exResultSpot.Nodes.countP
      (fun a => decide (a.Template.CapacityType = CapacityType.spot))) =
      (min (goRound ((exResultSpot.Nodes.length : ℚ) * exInputSpot.SpotRatio))
        (exResultSpot.Nodes.length : ℤ)).toNat ∧
    (exResultSpot.Nodes.countP
      (fun a => decide (a.Template.CapacityType = CapacityType.onDemand))) =
      exResultSpot.Nodes.length -
        (min (goRound ((exResultSpot.Nodes.length : ℚ) * exInputSpot.SpotRatio))
          (exResultSpot.Nodes.length : ℤ)).toNat ∧
    ∀ i j, i < exResultSpot.Nodes.length → j < exResultSpot.Nodes.length →
      (exResultSpot.Nodes.getD i default).Template.CapacityType = CapacityType.spot →
      (exResultSpot.Nodes.getD j default).Template.CapacityType = CapacityType.onDemand →
      ((exResultSpot.Nodes.getD i default).UsedCPU <
          (exResultSpot.Nodes.getD j default).UsedCPU ∨
        ((exResultSpot.Nodes.getD i default).UsedCPU =
          (exResultSpot.Nodes.getD j default).UsedCPU ∧ i < j)) :=
  pack_spot_assignment neverCancelled exInputSpot exResultSpot
    (by with_unfolding_all decide) (by with_unfolding_all rfl) (by with_unfolding_all decide)

/-! ### Claim C8: with weight (1,0,0,0) the rank-1 result is cheapest -/

theorem minCostOf_le (a : ℚ) (rest : List SimulationResult) :
    minCostOf a rest ≤ a ∧ ∀ r ∈ rest, minCostOf a rest ≤ r.TotalCost := by
  induction rest generalizing a with
  | nil => exact ⟨le_refl a, by simp⟩
  | cons x xs ih =>
    have hstep : minCostOf a (x :: xs) =
        minCostOf (if x.TotalCost < a then x.TotalCost else a) xs := by
      unfold minCostOf
      rw [List.foldl_cons]
    rcases ih (if x.TotalCost < a then x.TotalCost else a) with ⟨h1, h2⟩
    constructor
    · rw [hstep]
      refine le_trans h1 ?_
      by_cases hx : x.TotalCost < a
      · rw [if_pos hx]; exact le_of_lt hx
      · rw [if_neg hx]
    · intro r hr
      rcases List.mem_cons.mp hr with rfl | hr
      · rw [hstep]
        refine le_trans h1 ?_
        by_cases hx : r.TotalCost < a
        · rw [if_pos hx]
        · rw [if_neg hx]; exact le_of_not_lt hx
      · rw [hstep]; exact h2 r hr

theorem le_maxCostOf (a : ℚ) (rest : List SimulationResult) :
    a ≤ maxCostOf a rest ∧ ∀ r ∈ rest, r.TotalCost ≤ maxCostOf a rest := by
  induction rest generalizing a with
  | nil => exact ⟨le_refl a, by simp⟩
  | cons x xs ih =>
    have hstep : maxCostOf a (x :: xs) =
        maxCostOf (if a < x.TotalCost then x.TotalCost else a) xs := by
      unfold maxCostOf
      rw [List.foldl_cons]
    rcases ih (if a < x.TotalCost then x.TotalCost else a) with ⟨h1, h2⟩
    constructor
    · rw [hstep]
      refine le_trans ?_ h1
      by_cases hx : a < x.TotalCost
      · rw [if_pos hx]; exact le_of_lt hx
      · rw [if_neg hx]
    · intro r hr
      rcases List.mem_cons.mp hr with rfl | hr
      · rw [hstep]
        refine le_trans ?_ h1
        by_cases hx : a < r.TotalCost
        · rw [if_pos hx]
        · rw [if_neg hx]; exact le_of_not_lt hx
      · rw [hstep]; exact h2 r hr

theorem score_CostScore (s : Scorer) (r : SimulationResult) (b : Option SimulationResult)
    (mi ma : ℚ) :
    (s.score r b mi ma).CostScore =
      if 0 < ma - mi then (1 - (r.TotalCost - mi) / (ma - mi)) * 100 else 100 := rfl

theorem score_MonthlyCost (s : Scorer) (r : SimulationResult) (b : Option SimulationResult)
    (mi ma : ℚ) : (s.score r b mi ma).MonthlyCost = r.TotalCost := rfl

theorem score_OverallScore (s : Scorer) (r : SimulationResult) (b : Option SimulationResult)
    (mi ma : ℚ) :
    (s.score r b mi ma).OverallScore =
      s.Weights.Cost * (s.score r b mi ma).CostScore +
      s.Weights.Utilization * (s.score r b mi ma).UtilizationScore +
      s.Weights.Fragmentation * (s.score r b mi ma).FragmentationScore +
      s.Weights.Resilience * (s.score r b mi ma).ResilienceScore := rfl

/-- The overall-score comparator of RankResults is asymmetric. -/
theorem rankLt_asym (a b : Recommendation) :
    decide (b.OverallScore < a.OverallScore) = true →
    decide (a.OverallScore < b.OverallScore) = false := by
  intro h
  simp only [decide_eq_true_eq] at h
  simpa using le_of_lt h

/-- The overall-score comparator of RankResults is negatively transitive. -/
theorem rankLt_ntrans (a b c : Recommendation) :
    decide (a.OverallScore < b.OverallScore) = false →
    decide (b.OverallScore < c.OverallScore) = false →
    decide (a.OverallScore < c.OverallScore) = false := by
  intro h1 h2
  simp only [decide_eq_false_iff_not, not_lt] at h1 h2 ⊢
  exact le_trans h2 h1

/-- Claim C8: when the scoring weights are cost = 1 and everything else 0,
some recommendation carries rank 1 and every rank-1 recommendation has the
minimum total monthly cost among the scored results. -/
theorem rank1_has_min_cost (s : Scorer) (results : List SimulationResult)
    (hw : s.Weights = { Cost := 1, Utilization := 0, Fragmentation := 0, Resilience := 0 })
    (hne : results ≠ []) :
    (∃ rec ∈ s.RankResults results none, rec.Rank = 1) ∧
    (∀ rec ∈ s.RankResults results none, rec.Rank = 1 →
      ∀ r ∈ results, rec.MonthlyCost ≤ r.TotalCost) := by
  cases results with
  | nil => exact absurd rfl hne
  | cons r0 rest =>
  clear hne
  have hrr : s.RankResults (r0 :: rest) none =
      (withIdx (sortStable (fun a b => decide (b.OverallScore < a.OverallScore))
        ((r0 :: rest).map (fun r => s.score r none (minCostOf r0.TotalCost rest)
          (maxCostOf r0.TotalCost rest)))) 0).map
        (fun p => { p.2 with Rank := (p.1 : ℤ) + 1 }) := rfl
  set mi := minCostOf r0.TotalCost rest with hmi
  set ma := maxCostOf r0.TotalCost rest with hma
  set recs := (r0 :: rest).map (fun r => s.score r none mi ma) with hrecs
  set sorted := sortStable (fun a b => decide (b.OverallScore < a.OverallScore)) recs with hsorted
  have hslen : sorted.length = recs.length := (sortStable_perm _ recs).length_eq
  have hrlen : recs.length = rest.length + 1 := by rw [hrecs, List.length_map, List.length_cons]
  have hpair := sortStable_pairwise (fun a b => decide (b.OverallScore < a.OverallScore))
    rankLt_asym rankLt_ntrans recs
  rw [← hsorted] at hpair
  cases hs : sorted with
  | nil =>
    rw [hs] at hslen
    simp at hslen
    omega
  | cons s0 stail =>
  have hhead : ∀ x ∈ sorted, x.OverallScore ≤ s0.OverallScore := by
    intro x hx
    rw [hs] at hx hpair
    rcases List.mem_cons.mp hx with rfl | hx
    · exact le_refl _
    · have := (List.pairwise_cons.mp hpair).1 x hx
      simpa using this
  -- every element of recs (hence of results, scored) is bounded by the head
  have hscored : ∀ r ∈ r0 :: rest, (s.score r none mi ma).OverallScore ≤ s0.OverallScore := by
    intro r hr
    refine hhead _ ?_
    rw [hsorted]
    refine (sortStable_perm _ recs).mem_iff.mpr ?_
    rw [hrecs]
    exact List.mem_map_of_mem _ hr
  -- the head itself is a scored result
  have hs0mem : s0 ∈ recs := by
    have : s0 ∈ sorted := by rw [hs]; exact List.mem_cons_self s0 stail
    exact (sortStable_perm _ recs).mem_iff.mp (hsorted ▸ this)
  obtain ⟨q0, hq0mem, hq0⟩ := List.mem_map.mp (hrecs ▸ hs0mem)
  -- with weights (1,0,0,0) the overall score is the cost score
  have hoverall : ∀ (r : SimulationResult),
      (s.score r none mi ma).OverallScore = (s.score r none mi ma).CostScore := by
    intro r
    rw [score_OverallScore, hw]
    ring
  -- cost score comparisons translate to cost comparisons
  have hmono : ∀ (x y : SimulationResult), mi ≤ x.TotalCost → x.TotalCost ≤ ma →
      mi ≤ y.TotalCost → y.TotalCost ≤ ma →
      (s.score y none mi ma).CostScore ≤ (s.score x none mi ma).CostScore →
      x.TotalCost ≤ y.TotalCost := by
    intro x y hx1 hx2 hy1 hy2 hcs
    rw [score_CostScore, score_CostScore] at hcs
    by_cases hrange : 0 < ma - mi
    · rw [if_pos hrange, if_pos hrange] at hcs
      have hdiv : (x.TotalCost - mi) / (ma - mi) ≤ (y.TotalCost - mi) / (ma - mi) := by
        linarith
      have := (div_le_div_iff_of_pos_right hrange).mp hdiv
      linarith
    · push_neg at hrange
      linarith
  -- the cost bounds hold for every scored result
  obtain ⟨hminle, hminall⟩ := minCostOf_le r0.TotalCost rest
  obtain ⟨hmaxle, hmaxall⟩ := le_maxCostOf r0.TotalCost rest
  have hbound : ∀ x ∈ r0 :: rest, mi ≤ x.TotalCost ∧ x.TotalCost ≤ ma := by
    intro x hx
    rcases List.mem_cons.mp hx with rfl | hx
    · exact ⟨hminle, hmaxle⟩
    · exact ⟨hminall x hx, hmaxall x hx⟩
  constructor
  · -- the head of the ranked list carries rank 1
    have hhd : s.RankResults (r0 :: rest) none =
        ({ s0 with Rank := ((0 : ℕ) : ℤ) + 1 }) ::
          (withIdx stail 1).map (fun p => { p.2 with Rank := (p.1 : ℤ) + 1 }) := by
      rw [hrr, hs]
      rfl
    exact ⟨{ s0 with Rank := ((0 : ℕ) : ℤ) + 1 },
      by rw [hhd]; exact List.mem_cons_self _ _, by norm_num⟩
  · intro rec hrec hrank r hr
    rw [hrr] at hrec
    obtain ⟨p, hp, hpf⟩ := List.mem_map.mp hrec
    have hp1 : p.1 = 0 := by
      have h1 : rec.Rank = (p.1 : ℤ) + 1 := by rw [← hpf]
      rw [hrank] at h1
      omega
    obtain ⟨k, hk0, hkget⟩ := (mem_withIdx sorted 0 p).mp hp
    have hk : k = 0 := by omega
    subst hk
    have hps0 : p.2 = s0 := by
      symm
      rw [hs] at hkget
      simpa using hkget
    have hmc : rec.MonthlyCost = s0.MonthlyCost := by rw [← hpf, hps0]
    have hmc2 : s0.MonthlyCost = q0.TotalCost := by rw [← hq0, score_MonthlyCost]
    have h1 : (s.score r none mi ma).OverallScore ≤ (s.score q0 none mi ma).OverallScore := by
      rw [hq0]
      exact hscored r hr
    rw [hoverall, hoverall] at h1
    obtain ⟨hq0lo, hq0hi⟩ := hbound q0 hq0mem
    obtain ⟨hrlo, hrhi⟩ := hbound r hr
    have hfin := hmono q0 r hq0lo hq0hi hrlo hrhi h1
    rw [hmc, hmc2]
    exact hfin

/-! ### Claim C9: component scores lie in the 0 to 100 range -/

theorem resilienceBase_bounds (n : ℤ) : 20 ≤ resilienceBase n ∧ resilienceBase n ≤ 100 := by
  unfold resilienceBase
  split_ifs <;> norm_num

theorem clamp_step_bounds (x p : ℚ) (hx : x ≤ 100) (hp : 0 ≤ p) :
    0 ≤ max 0 (x - p) ∧ max 0 (x - p) ≤ 100 := by
  constructor
  · exact le_max_left 0 (x - p)
  · rw [max_le_iff]
    constructor <;> linarith

theorem resilienceScoreOf_bounds (dsCount : ℤ) (r : SimulationResult) :
    0 ≤ resilienceScoreOf dsCount r ∧ resilienceScoreOf dsCount r ≤ 100 := by
  unfold resilienceScoreOf
  obtain ⟨hb0, hb1⟩ := resilienceBase_bounds r.TotalNodes
  set res0 := resilienceBase r.TotalNodes with hres0
  have h1 : (0 ≤ res0 ∧ res0 ≤ 100) := ⟨by linarith, hb1⟩
  set res1 := if 0 < dsCount ∧ 5 < r.TotalNodes then
      max 0 (res0 - min ((dsCount : ℚ) * (r.TotalNodes : ℚ) / 100 * 5) 20)
    else res0 with hres1
  have h2 : 0 ≤ res1 ∧ res1 ≤ 100 := by
    rw [hres1]
    split_ifs with hc
    · refine clamp_step_bounds res0 _ h1.2 ?_
      have hds : (0 : ℚ) < (dsCount : ℚ) := by exact_mod_cast hc.1
      have hn5 : (5 : ℚ) < (r.TotalNodes : ℚ) := by exact_mod_cast hc.2
      have : (0 : ℚ) ≤ (dsCount : ℚ) * (r.TotalNodes : ℚ) / 100 * 5 := by positivity
      exact le_min this (by norm_num)
    · exact h1
  set res2 := if 0 < r.UnschedulablePods.length then
      max 0 (res1 - min ((r.UnschedulablePods.length : ℚ) * 10) 50)
    else res1 with hres2
  have h3 : 0 ≤ res2 ∧ res2 ≤ 100 := by
    rw [hres2]
    split_ifs with hc
    · refine clamp_step_bounds res1 _ h2.2 ?_
      have : (0 : ℚ) ≤ (r.UnschedulablePods.length : ℚ) * 10 := by positivity
      exact le_min this (by norm_num)
    · exact h2
  cases hse : r.ScalingEfficiency with
  | none => exact h3
  | some se =>
    by_cases hc : se.EstTroughCPUUtil < 30/100
    · simp only [hse, hc, if_true]
      refine clamp_step_bounds res2 _ h3.2 ?_
      have h30 : (0 : ℚ) < 30/100 := by norm_num
      have : 0 < 30/100 - se.EstTroughCPUUtil := by linarith
      positivity
    · simp only [hse, hc, if_false]
      exact h3

theorem costScore_bounds (mi ma c : ℚ) (h1 : mi ≤ c) (h2 : c ≤ ma) :
    0 ≤ (if 0 < ma - mi then (1 - (c - mi) / (ma - mi)) * 100 else 100) ∧
    (if 0 < ma - mi then (1 - (c - mi) / (ma - mi)) * 100 else 100) ≤ 100 := by
  split_ifs with hr
  · have hfrac0 : 0 ≤ (c - mi) / (ma - mi) := by
      apply div_nonneg <;> linarith
    have hfrac1 : (c - mi) / (ma - mi) ≤ 1 := by
      rw [div_le_one hr]
      linarith
    constructor <;> nlinarith
  · norm_num

/-- Bounds for the fragmentation accumulator: the balance sum and the
underutilised count grow by at most 1 per node and never shrink. -/
theorem fragStep_fold_bounds (nodes : List NodeAllocation)
    (h : ∀ a ∈ nodes, 0 ≤ a.UsedCPU ∧ a.UsedCPU ≤ a.Template.AllocatableCPUMillis ∧
      0 ≤ a.UsedMem ∧ a.UsedMem ≤ a.Template.AllocatableMemoryBytes) :
    ∀ acc : ℤ × ℤ × ℚ × ℕ,
      acc.2.2.1 ≤ (nodes.foldl fragStep acc).2.2.1 ∧
      (nodes.foldl fragStep acc).2.2.1 ≤ acc.2.2.1 + nodes.length ∧
      acc.2.2.2 ≤ (nodes.foldl fragStep acc).2.2.2 ∧
      (nodes.foldl fragStep acc).2.2.2 ≤ acc.2.2.2 + nodes.length := by
  induction nodes with
  | nil => intro acc; simp
  | cons n ns ih =>
    intro acc
    have hn := h n (List.mem_cons_self n ns)
    have hns : ∀ a ∈ ns, 0 ≤ a.UsedCPU ∧ a.UsedCPU ≤ a.Template.AllocatableCPUMillis ∧
        0 ≤ a.UsedMem ∧ a.UsedMem ≤ a.Template.AllocatableMemoryBytes :=
      fun a ha => h a (List.mem_cons_of_mem n ha)
    have ihs := (fun acc => by
      have := ih hns acc
      exact this : ∀ acc : ℤ × ℤ × ℚ × ℕ, _)
    have hstep : acc.2.2.1 ≤ (fragStep acc n).2.2.1 ∧
        (fragStep acc n).2.2.1 ≤ acc.2.2.1 + 1 ∧
        acc.2.2.2 ≤ (fragStep acc n).2.2.2 ∧
        (fragStep acc n).2.2.2 ≤ acc.2.2.2 + 1 := by
      unfold fragStep
      by_cases hz : (n.Template.AllocatableResources).CPUMillis = 0 ∨
          (n.Template.AllocatableResources).MemoryBytes = 0
      · simp only [hz, if_true]
        refine ⟨le_refl _, by linarith, le_refl _, by omega⟩
      · simp only [hz, if_false]
        push_neg at hz
        simp only [NodeTemplate.AllocatableResources] at hz ⊢
        obtain ⟨hc0, hc1, hm0, hm1⟩ := hn
        have hcpos : (0 : ℤ) < n.Template.AllocatableCPUMillis := by
          rcases lt_or_eq_of_le (le_trans hc0 hc1) with hlt | heq
          · exact hlt
          · exact absurd heq.symm hz.1
        have hmpos : (0 : ℤ) < n.Template.AllocatableMemoryBytes := by
          rcases lt_or_eq_of_le (le_trans hm0 hm1) with hlt | heq
          · exact hlt
          · exact absurd heq.symm hz.2
        have hcu0 : (0 : ℚ) ≤ (n.UsedCPU : ℚ) / (n.Template.AllocatableCPUMillis : ℚ) := by
          apply div_nonneg
          · exact_mod_cast hc0
          · exact_mod_cast le_of_lt hcpos
        have hcu1 : (n.UsedCPU : ℚ) / (n.Template.AllocatableCPUMillis : ℚ) ≤ 1 := by
          rw [div_le_one (by exact_mod_cast hcpos)]
          exact_mod_cast hc1
        have hmu0 : (0 : ℚ) ≤ (n.UsedMem : ℚ) / (n.Template.AllocatableMemoryBytes : ℚ) := by
          apply div_nonneg
          · exact_mod_cast hm0
          · exact_mod_cast le_of_lt hmpos
        have hmu1 : (n.UsedMem : ℚ) / (n.Template.AllocatableMemoryBytes : ℚ) ≤ 1 := by
          rw [div_le_one (by exact_mod_cast hmpos)]
          exact_mod_cast hm1
        have habs : |(n.UsedCPU : ℚ) / (n.Template.AllocatableCPUMillis : ℚ) -
            (n.UsedMem : ℚ) / (n.Template.AllocatableMemoryBytes : ℚ)| ≤ 1 := by
          rw [abs_le]
          constructor <;> linarith
        have habs0 : 0 ≤ |(n.UsedCPU : ℚ) / (n.Template.AllocatableCPUMillis : ℚ) -
            (n.UsedMem : ℚ) / (n.Template.AllocatableMemoryBytes : ℚ)| := abs_nonneg _
        refine ⟨by linarith, by linarith, ?_, ?_⟩
        · split_ifs <;> omega
        · split_ifs <;> omega
    rw [List.foldl_cons]
    obtain ⟨a1, a2, a3, a4⟩ := ihs (fragStep acc n)
    simp only [List.length_cons]
    refine ⟨by linarith [hstep.1], ?_, by omega, ?_⟩
    · push_cast
      linarith [hstep.2.1]
    · omega

theorem analyzeFragmentation_bounds (nodes : List NodeAllocation)
    (h : ∀ a ∈ nodes, 0 ≤ a.UsedCPU ∧ a.UsedCPU ≤ a.Template.AllocatableCPUMillis ∧
      0 ≤ a.UsedMem ∧ a.UsedMem ≤ a.Template.AllocatableMemoryBytes) :
    (0 ≤ (AnalyzeFragmentation nodes).ResourceBalanceScore ∧
      (AnalyzeFragmentation nodes).ResourceBalanceScore ≤ 1) ∧
    (0 ≤ (AnalyzeFragmentation nodes).UnderutilizedNodeFraction ∧
      (AnalyzeFragmentation nodes).UnderutilizedNodeFraction ≤ 1) := by
  unfold AnalyzeFragmentation
  by_cases hz : nodes = []
  · simp [hz]
  · simp only [hz, if_false]
    obtain ⟨b1, b2, b3, b4⟩ := fragStep_fold_bounds nodes h (0, 0, 0, 0)
    have hlen : 0 < nodes.length := List.length_pos_of_ne_nil hz
    have hlenq : (0 : ℚ) < (nodes.length : ℚ) := by exact_mod_cast hlen
    simp only [] at b1 b2 b3 b4
    constructor
    · constructor
      · apply div_nonneg _ (le_of_lt hlenq)
        simpa using b1
      · rw [div_le_one hlenq]
        simpa using b2
    · constructor
      · apply div_nonneg _ (le_of_lt hlenq)
        positivity
      · rw [div_le_one hlenq]
        have : (nodes.foldl fragStep (0, 0, 0, 0)).2.2.2 ≤ nodes.length := by simpa using b4
        exact_mod_cast this

theorem score_UtilizationScore (s : Scorer) (r : SimulationResult)
    (b : Option SimulationResult) (mi ma : ℚ) :
    (s.score r b mi ma).UtilizationScore =
      ((r.AvgCPUUtilization + r.AvgMemUtilization) / 2) * 100 := rfl

theorem score_FragmentationScore (s : Scorer) (r : SimulationResult)
    (b : Option SimulationResult) (mi ma : ℚ) :
    (s.score r b mi ma).FragmentationScore =
      r.Fragmentation.ResourceBalanceScore * 100 *
        (1 - r.Fragmentation.UnderutilizedNodeFraction) := rfl

theorem score_ResilienceScore (s : Scorer) (r : SimulationResult)
    (b : Option SimulationResult) (mi ma : ℚ) :
    (s.score r b mi ma).ResilienceScore = resilienceScoreOf s.DaemonSetCount r := rfl

theorem snd_mem_withIdx (l : List α) (i : ℕ) (p : ℕ × α) (h : p ∈ withIdx l i) : p.2 ∈ l := by
  obtain ⟨k, _, hget⟩ := (mem_withIdx l i p).mp h
  exact List.getElem?_mem hget

/-- Every ranked recommendation is the score of one of the input results
against the batch cost bounds, with only the rank rewritten. -/
theorem mem_RankResults_scores (s : Scorer) (results : List SimulationResult)
    (baseline : Option SimulationResult) (rec : Recommendation)
    (h : rec ∈ s.RankResults results baseline) :
    ∃ r0 rest, results = r0 :: rest ∧ ∃ r ∈ results,
      rec.CostScore = (s.score r baseline (minCostOf r0.TotalCost rest)
        (maxCostOf r0.TotalCost rest)).CostScore ∧
      rec.UtilizationScore = (s.score r baseline (minCostOf r0.TotalCost rest)
        (maxCostOf r0.TotalCost rest)).UtilizationScore ∧
      rec.FragmentationScore = (s.score r baseline (minCostOf r0.TotalCost rest)
        (maxCostOf r0.TotalCost rest)).FragmentationScore ∧
      rec.ResilienceScore = (s.score r baseline (minCostOf r0.TotalCost rest)
        (maxCostOf r0.TotalCost rest)).ResilienceScore := by
  cases results with
  | nil => cases h
  | cons r0 rest =>
    refine ⟨r0, rest, rfl, ?_⟩
    have hrr : s.RankResults (r0 :: rest) none = s.RankResults (r0 :: rest) none := rfl
    obtain ⟨p, hp, hpf⟩ := List.mem_map.mp h
    have hmem : p.2 ∈ sortStable (fun a b => decide (b.OverallScore < a.OverallScore))
        ((r0 :: rest).map (fun r => s.score r baseline (minCostOf r0.TotalCost rest)
          (maxCostOf r0.TotalCost rest))) := snd_mem_withIdx _ 0 p hp
    have hmem2 := (sortStable_perm _ _).mem_iff.mp hmem
    obtain ⟨r, hr, hscore⟩ := List.mem_map.mp hmem2
    refine ⟨r, hr, ?_, ?_, ?_, ?_⟩ <;> rw [← hpf, ← hscore]

/-- Claim C9: on results produced by the packing pipeline (average
utilisations in the unit interval, fragmentation report computed from the
nodes, per-node used resources between zero and allocatable), every component
score of every ranked recommendation lies in the 0 to 100 range; in
particular the resilience score never goes below 0 after the penalties. -/
theorem ranked_component_scores_in_range (s : Scorer) (results : List SimulationResult)
    (baseline : Option SimulationResult)
    (H : ∀ r ∈ results,
      (0 ≤ r.AvgCPUUtilization ∧ r.AvgCPUUtilization ≤ 1) ∧
      (0 ≤ r.AvgMemUtilization ∧ r.AvgMemUtilization ≤ 1) ∧
      r.Fragmentation = AnalyzeFragmentation r.Nodes ∧
      ∀ a ∈ r.Nodes, 0 ≤ a.UsedCPU ∧ a.UsedCPU ≤ a.Template.AllocatableCPUMillis ∧
        0 ≤ a.UsedMem ∧ a.UsedMem ≤ a.Template.AllocatableMemoryBytes) :
    ∀ rec ∈ s.RankResults results baseline,
      (0 ≤ rec.CostScore ∧ rec.CostScore ≤ 100) ∧
      (0 ≤ rec.UtilizationScore ∧ rec.UtilizationScore ≤ 100) ∧
      (0 ≤ rec.FragmentationScore ∧ rec.FragmentationScore ≤ 100) ∧
      (0 ≤ rec.ResilienceScore ∧ rec.ResilienceScore ≤ 100) := by
  intro rec hrec
  obtain ⟨r0, rest, rfl, r, hr, hcs, hus, hfs, hrs⟩ :=
    mem_RankResults_scores s _ baseline rec hrec
  obtain ⟨⟨ha0, ha1⟩, ⟨hb0, hb1⟩, hfrag, hnb⟩ := H r hr
  obtain ⟨hminle, hminall⟩ := minCostOf_le r0.TotalCost rest
  obtain ⟨hmaxle, hmaxall⟩ := le_maxCostOf r0.TotalCost rest
  have hcost : minCostOf r0.TotalCost rest ≤ r.TotalCost ∧
      r.TotalCost ≤ maxCostOf r0.TotalCost rest := by
    rcases List.mem_cons.mp hr with rfl | hr2
    · exact ⟨hminle, hmaxle⟩
    · exact ⟨hminall r hr2, hmaxall r hr2⟩
  refine ⟨?_, ?_, ?_, ?_⟩
  · rw [hcs, score_CostScore]
    exact costScore_bounds _ _ _ hcost.1 hcost.2
  · rw [hus, score_UtilizationScore]
    constructor <;> linarith
  · rw [hfs, score_FragmentationScore, hfrag]
    obtain ⟨⟨hba0, hba1⟩, ⟨hf0, hf1⟩⟩ := analyzeFragmentation_bounds r.Nodes hnb
    constructor
    · have h1 : (0 : ℚ) ≤ 1 - (AnalyzeFragmentation r.Nodes).UnderutilizedNodeFraction := by
        linarith
      positivity
    · nlinarith
  · rw [hrs, score_ResilienceScore]
    exact resilienceScoreOf_bounds s.DaemonSetCount r

/-! ### Scorer fixtures and witnesses -/

/-- A simulation result with the given monthly cost and consistent
pipeline-produced fields. -/
def exSim (cost : ℚ) : SimulationResult :=
  { InstanceConfig :=
      { InstanceTypes := [exTemplate], SpotRatio := 0, Strategy := "homogeneous" },
    Nodes := [exNodeS1], TotalNodes := 1, TotalCost := cost,
    TotalCPU := 2000, TotalMemory := 8192, UsedCPU := 1000, UsedMemory := 2048,
    AvgCPUUtilization := 1/2, AvgMemUtilization := 1/4,
    Fragmentation :=
      { StrandedCPUMillis := 0, StrandedMemoryBytes := 0,
        UnderutilizedNodeFraction := 1, ResourceBalanceScore := 3/4 },
    UnschedulablePods := [], ScalingEfficiency := none }

/-- A scorer with all weight on cost. -/
def exScorerCost : Scorer :=
  { Weights := { Cost := 1, Utilization := 0, Fragmentation := 0, Resilience := 0 },
    DaemonSetCount := 0 }

/-- Witness for the C8 theorem on three results of costs 1000, 500 and 800. -/
theorem rank1_has_min_cost_witness :
    (∃ rec ∈ exScorerCost.RankResults [exSim 1000, exSim 500, exSim 800] none, rec.Rank = 1) ∧
    (∀ rec ∈ exScorerCost.RankResults [exSim 1000, exSim 500, exSim 800] none, rec.Rank = 1 →
      ∀ r ∈ [exSim 1000, exSim 500, exSim 800], rec.MonthlyCost ≤ r.TotalCost) :=
  rank1_has_min_cost exScorerCost [exSim 1000, exSim 500, exSim 800] rfl
    (List.cons_ne_nil _ _)

/-- The default-weight scorer of the repository. -/
def exScorerDefault : Scorer :=
  { Weights :=
      { Cost := 40/100, Utilization := 30/100, Fragmentation := 15/100,
        Resilience := 15/100 },
    DaemonSetCount := 0 }

/-- The single recommendation the default scorer produces for one exSim 70
result. -/
def exRecC9 : Recommendation :=
  { Rank := 1, SimulationResult := exSim 70, MonthlyCost := 70,
    CostVsBaseline := 0, AnnualSavings := 0,
    OverallScore := 217/4, CostScore := 100, UtilizationScore := 75/2,
    ResilienceScore := 20, FragmentationScore := 0 }

/-- Witness for the C9 theorem on a concrete one-result ranking. -/
theorem ranked_component_scores_in_range_witness :
    (0 ≤ exRecC9.CostScore ∧ exRecC9.CostScore ≤ 100) ∧
    (0 ≤ exRecC9.UtilizationScore ∧ exRecC9.UtilizationScore ≤ 100) ∧
    (0 ≤ exRecC9.FragmentationScore ∧ exRecC9.FragmentationScore ≤ 100) ∧
    (0 ≤ exRecC9.ResilienceScore ∧ exRecC9.ResilienceScore ≤ 100) :=
  ranked_component_scores_in_range exScorerDefault [exSim 70] none
    (by
      intro r hr
      rw [List.mem_singleton] at hr
      subst hr
      refine ⟨⟨?_, ?_⟩, ⟨?_, ?_⟩, ?_, ?_⟩
      · norm_num [exSim]
      · norm_num [exSim]
      · norm_num [exSim]
      · norm_num [exSim]
      · with_unfolding_all rfl
      · intro a ha
        simp only [exSim, List.mem_singleton] at ha
        subst ha
        refine ⟨by norm_num [exNodeS1], by norm_num [exNodeS1, exTemplate], ?_, ?_⟩
        · norm_num [exNodeS1]
        · norm_num [exNodeS1, exTemplate])
    exRecC9
    (by
      have hlist : exScorerDefault.RankResults [exSim 70] none = [exRecC9] := by
        with_unfolding_all rfl
      rw [hlist]
      exact List.mem_cons_self _ _)

/-! ### Claim C6: sizing floors -/

theorem goTrunc_int_le (r : ℤ) (q : ℚ) (h : (r : ℚ) ≤ q) : r ≤ goTrunc q := by
  unfold goTrunc
  split_ifs with h0
  · exact Int.le_floor.mpr h
  · exact_mod_cast le_trans h (Int.le_ceil q)

/-- Claim C6: the effective demand emitted by the sizing stage satisfies
eff_cpu ≥ max(request_cpu, 10) millicores and eff_mem ≥ max(request_mem,
64 MiB), the floors applied after taking the max of the declared request and
the usage at the configured percentile (or the request alone when both P95
usage values are zero). -/
theorem effectiveSizing_floors (s : SizingInput) :
    max s.requestedCPUMillis 10 ≤ (effectiveSizing s).1 ∧
    max s.requestedMemoryBytes (64 * 1024 * 1024) ≤ (effectiveSizing s).2.1 := by
  have hcpu : s.requestedCPUMillis ≤
      goTrunc (max (s.requestedCPUMillis : ℚ) (s.cpuUsage.AtPercentile s.percentile * 1000)) :=
    goTrunc_int_le _ _ (le_max_left _ _)
  have hmem : s.requestedMemoryBytes ≤
      goTrunc (max (s.requestedMemoryBytes : ℚ) (s.memUsage.AtPercentile s.percentile)) :=
    goTrunc_int_le _ _ (le_max_left _ _)
  simp only [effectiveSizing]
  split_ifs <;> constructor <;> omega

/-! ### Claim C7: workload classification thresholds -/

theorem classifyRatio_spec (v g : ℚ) (hv : v ≠ 0) :
    (classifyRatio v g).2 = g / v ∧
    (classifyRatio v g).1 = (if g / v < 3 then WorkloadClass.compute
      else if 6 < g / v then WorkloadClass.memory else WorkloadClass.general) := by
  simp only [classifyRatio]
  rw [if_neg hv]
  split_ifs <;> exact ⟨rfl, rfl⟩

/-- Claim C7: classification returns compute-optimised when the GiB-per-vCPU
ratio is strictly below 3, memory-optimised when strictly above 6,
general-purpose for ratios between 3 and 6 inclusive, and the safe default
(general-purpose, 4.0) when the vCPU figure used for the ratio is zero. -/
theorem classify_thresholds (cs : ClusterState) :
    (cs.vcpusUsed = 0 → cs.ClassifyWorkloads = (WorkloadClass.general, 4)) ∧
    (cs.vcpusUsed ≠ 0 →
      (cs.ClassifyWorkloads).2 = cs.gibUsed / cs.vcpusUsed ∧
      (cs.ClassifyWorkloads).1 =
        (if cs.gibUsed / cs.vcpusUsed < 3 then WorkloadClass.compute
         else if 6 < cs.gibUsed / cs.vcpusUsed then WorkloadClass.memory
         else WorkloadClass.general)) := by
  unfold ClusterState.ClassifyWorkloads ClusterState.vcpusUsed ClusterState.gibUsed
  have hdiv : ∀ x : ℤ, ((x : ℚ) / 1000 = 0) ↔ x = 0 := by
    intro x
    rw [div_eq_zero_iff]
    norm_num
  cases hm : cs.AggregateMetrics with
  | none =>
    dsimp only
    constructor
    · intro h0
      rw [hdiv] at h0
      rw [if_pos h0]
    · intro hne
      have h0 : cs.TotalEffectiveCPU ≠ 0 := by
        intro hc
        exact hne ((hdiv cs.TotalEffectiveCPU).mpr hc)
      rw [if_neg h0]
      exact classifyRatio_spec _ _ hne
  | some m =>
    dsimp only
    by_cases hp : 0 < m.P95CPUCores ∧ 0 < m.P95MemoryBytes
    · simp only [if_pos hp]
      constructor
      · intro h0
        exact absurd h0 (ne_of_gt hp.1)
      · intro hne
        exact classifyRatio_spec _ _ hne
    · simp only [if_neg hp]
      constructor
      · intro h0
        rw [hdiv] at h0
        rw [if_pos h0]
      · intro hne
        have h0 : cs.TotalEffectiveCPU ≠ 0 := by
          intro hc
          exact hne ((hdiv cs.TotalEffectiveCPU).mpr hc)
        rw [if_neg h0]
        exact classifyRatio_spec _ _ hne

/-- A cluster state whose aggregate P95 metrics give a ratio of 2 GiB per
vCPU. -/
def exClusterCompute : ClusterState :=
  { Workloads := [], DaemonSets := [],
    SystemReserved := { CPUMillis := 0, MemoryBytes := 0 },
    AggregateMetrics := some
      { P95CPUCores := 1, P95MemoryBytes := 2 * 1024 * 1024 * 1024,
        MinNodeCount := 1, MaxNodeCount := 1 } }

/-- Witness for the C7 theorem: a 2 GiB-per-vCPU cluster is classified on the
nonzero branch. -/
theorem classify_thresholds_witness :
    (exClusterCompute.ClassifyWorkloads).2 =
      exClusterCompute.gibUsed / exClusterCompute.vcpusUsed ∧
    (exClusterCompute.ClassifyWorkloads).1 =
      (if exClusterCompute.gibUsed / exClusterCompute.vcpusUsed < 3 then WorkloadClass.compute
       else if 6 < exClusterCompute.gibUsed / exClusterCompute.vcpusUsed then
        WorkloadClass.memory
       else WorkloadClass.general) :=
  (classify_thresholds exClusterCompute).2 (by with_unfolding_all decide)

end ClusterFit
